import Mathlib

/-!
# Verification of the python-bulletml interpreter core

This file gives a shallow embedding, in Lean 4, of the parts of the
`mcgillij/python-bulletml` repository that the specification claims talk
about, and proves or refutes each claim.

Conventions of the embedding:

* Python floats are modelled as real numbers (`ℝ`); integer-valued
  expressions (`INumberDef` results) as `Int`.
* Mutable Python objects with identity are modelled by explicit state
  passing.  Running `Action` objects live in a store (`List ActionS`)
  indexed by allocation order; object references are indices (`Nat`).
* Python's unbounded `while True` loop in `Action.step`, and the mutual
  recursion between `Action.step` and the node classes' `__call__`
  methods, is modelled with a fuel parameter that strictly decreases at
  every call.  Exhausted fuel returns the state unchanged; all theorems
  hold either for every fuel value or for all sufficiently large fuel.
* `NumberDef`/`INumberDef` objects held by nodes are modelled by their
  evaluation behaviour, a function of `(params, rank)` (the claims about
  the running interpreter do not involve `$rand`).  The internals of
  `NumberDef` itself are modelled separately (section `BMLExpr` below)
  for the claim about the expression evaluator.
-/

namespace BML

/- The runtime model works over `ℝ` (Python floats), so its definitions
are noncomputable; concrete runs are evaluated in proofs with `simp`. -/
noncomputable section

/-- Real-number model of Python `x % y` for `y > 0`:
`x % y = x - y * floor (x / y)` (result has the sign of `y`). -/
def pymod (x y : ℝ) : ℝ := x - y * ⌊x / y⌋

/-- `math.radians`: degrees to radians. -/
def radiansR (x : ℝ) : ℝ := x * Real.pi / 180

/-- `math.atan2 a b`: the angle of the point `(b, a)`,
modelled piecewise through `Real.arctan`. -/
def pyAtan2 (a b : ℝ) : ℝ :=
  if 0 < b then Real.arctan (a / b)
  else if b < 0 then
    (if 0 ≤ a then Real.arctan (a / b) + Real.pi
     else Real.arctan (a / b) - Real.pi)
  else
    (if 0 < a then Real.pi / 2 else if a < 0 then -(Real.pi / 2) else 0)

/-- Evaluation behaviour of a `NumberDef`: `(params, rank) ↦ value`. -/
def Expr : Type := List ℝ → ℝ → ℝ

/-- Evaluation behaviour of an `INumberDef`: rounds to an integer. -/
def IExpr : Type := List ℝ → ℝ → Int

/-- `Direction.VALID_TYPES` (parser.py line 70). -/
inductive DirType where
  | relative | absolute | aim | sequence
deriving DecidableEq, Repr

/-- `Speed.VALID_TYPES` (parser.py line 156); also used by `Accel`. -/
inductive SpdType where
  | relative | absolute | sequence
deriving DecidableEq, Repr

/-- `Offset.VALID_TYPES` (parser.py line 702). -/
inductive OffType where
  | relative | absolute
deriving DecidableEq, Repr

/-- `Offset` (parser.py lines 699-741): type plus optional x/y exprs. -/
structure OffsetT where
  type : OffType
  x : Option Expr
  y : Option Expr

mutual

/-- The compiled opcode tree: one constructor per entry of
`ActionDef.CONSTRUCTORS` (parser.py lines 1027-1041).  `*Ref` nodes are
represented with their resolved target inlined (after `BulletML.FromXML`
resolves references they hold a direct pointer to the definition; the
embedding covers the acyclic object graphs) together with their `<param>`
expression list. -/
inductive Node where
  | changeDirection (term : IExpr) (dval : Expr) (dty : DirType)
  | changeSpeed (term : IExpr) (sval : Expr) (sty : SpdType)
  | accelN (term : IExpr) (horizontal : Option (Expr × SpdType))
      (vertical : Option (Expr × SpdType))
  | waitN (frames : IExpr)
  | tagN (t : String)
  | untagN (t : String)
  | appearanceN (name : String)
  | vanishN
  | repeatN (times : IExpr) (inner : ActLike)
  | ifN (cond : IExpr) (thenNodes : List Node) (elseNodes : Option (List Node))
  | fireN (f : FireD)
  | fireRefN (ps : List Expr) (f : FireD)
  | actionN (nodes : List Node)
  | actionRefN (ps : List Expr) (nodes : List Node)

/-- An `ActionDef` or `ActionRef` in a position where either may occur
(`Repeat.action`, `BulletDef.actions`).  For a ref, `ps` is its
parameter list and the node list is the referenced definition's. -/
inductive ActLike where
  | adef (nodes : List Node)
  | aref (ps : List Expr) (nodes : List Node)

/-- `BulletDef` (parser.py lines 511-575) or `BulletRef` (577-611). -/
inductive BulletSpec where
  | bdef (direction : Option (Expr × DirType)) (speed : Option (Expr × SpdType))
      (actions : List ActLike) (tags : List String) (appearance : Option String)
  | bref (ps : List Expr) (b : BulletSpec)

/-- `FireDef` (parser.py lines 743-877). -/
inductive FireD where
  | mk (bullet : BulletSpec) (direction : Option (Expr × DirType))
      (speed : Option (Expr × SpdType)) (offset : Option OffsetT)
      (tags : List String) (appearance : Option String)

end

def FireD.bullet : FireD → BulletSpec | .mk b _ _ _ _ _ => b
def FireD.direction : FireD → Option (Expr × DirType) | .mk _ d _ _ _ _ => d
def FireD.speed : FireD → Option (Expr × SpdType) | .mk _ _ s _ _ _ => s
def FireD.offset : FireD → Option OffsetT | .mk _ _ _ o _ _ => o
def FireD.tags : FireD → List String | .mk _ _ _ _ t _ => t
def FireD.appearance : FireD → Option String | .mk _ _ _ _ _ a => a

/-- The mutable state of one running `Action` (impl.py lines 24-43).
`pc = none` models the Python sentinel `self.pc = None`. -/
structure ActionS where
  nodes : List Node
  parent : Option Nat
  rpt : Int
  wait_frames : Int := 0
  speed : ℝ := 0
  speed_frames : Int := 0
  direction : ℝ := 0
  direction_frames : Int := 0
  aiming : Bool := false
  mx : ℝ := 0
  my : ℝ := 0
  accel_frames : Int := 0
  previous_fire_direction : ℝ := 0
  previous_fire_speed : ℝ := 0
  params : List ℝ
  pc : Option Int := some (-1)
  finished : Bool := false

instance : Inhabited ActionS :=
  ⟨{ nodes := [], parent := none, rpt := 0, params := [] }⟩

/-- `Action.copy_state` (impl.py lines 56-67): copy fire/movement state
from `src` onto `dst`. -/
def copyState (dst src : ActionS) : ActionS :=
  { dst with
    direction_frames := src.direction_frames
    direction := src.direction
    aiming := src.aiming
    speed_frames := src.speed_frames
    speed := src.speed
    accel_frames := src.accel_frames
    mx := src.mx
    my := src.my
    previous_fire_direction := src.previous_fire_direction
    previous_fire_speed := src.previous_fire_speed }

/-- A target only needs `.x` and `.y` (duck typing in `Bullet.aim`). -/
structure Target where
  x : ℝ
  y : ℝ

/-- The mutable state of a `Bullet` (impl.py lines 145-161).  The field
`apearance` models the dynamic attribute created by the misspelled
assignment in `Appearance.__call__` (parser.py line 318); it is absent
(`none`) on a freshly constructed bullet. -/
structure BulletS where
  x : ℝ := 0
  y : ℝ := 0
  px : ℝ := 0
  py : ℝ := 0
  radius : ℝ := 0.5
  mx : ℝ := 0
  my : ℝ := 0
  direction : ℝ := 0
  speed : ℝ := 0
  vanished : Bool := false
  finished : Bool := false
  target : Option Target := none
  rank : ℝ := 0.5
  tags : Finset String := ∅
  appearance : Option String := none
  apearance : Option String := none
  actions : List Nat := []

/-- The whole interpreter state for one owner bullet: the bullet, the
store of `Action` objects (index = reference), and the `created` list
of the current step. -/
structure World where
  bullet : BulletS
  store : List ActionS
  created : List BulletS := []

def getA (w : World) (aid : Nat) : ActionS := w.store.getD aid default

def setA (w : World) (aid : Nat) (a : ActionS) : World :=
  { w with store := w.store.set aid a }

/-- Allocate a new `Action` object; returns its reference. -/
def alloc (w : World) (a : ActionS) : World × Nat :=
  ({ w with store := w.store ++ [a] }, w.store.length)

/-- `Bullet.aim` (impl.py lines 179-191): angle to the target, or 0 when
there is no target.  Note the x-difference is the *first* argument of
`atan2`. -/
def aimOf (b : BulletS) : ℝ :=
  match b.target with
  | none => 0
  | some t => pyAtan2 (t.x - b.x) (t.y - b.y)

/-- `Bullet.replace` (impl.py lines 200-210): replace the first
occurrence of `old` in the active list; silently do nothing when `old`
is not present (`ValueError: pass`). -/
def listReplaceFirst (old new : Nat) : List Nat → List Nat
  | [] => []
  | x :: xs => if x = old then new :: xs else x :: listReplaceFirst old new xs

def bulletReplace (w : World) (old new : Nat) : World :=
  { w with bullet := { w.bullet with
      actions := listReplaceFirst old new w.bullet.actions } }

/-- Mark one action dead: `self.pc = None; self.finished = True`. -/
def markDead (aid : Nat) (st : List ActionS) : List ActionS :=
  st.set aid { st.getD aid default with pc := none, finished := true }

/-- `Action.vanish` (impl.py lines 49-54): end this action and its
parents.  Parents are allocated before children, so the chain length is
below the store size; the fuel makes the recursion total. -/
def vanishChain : Nat → Nat → List ActionS → List ActionS
  | 0, aid, st => markDead aid st
  | fuel + 1, aid, st =>
    match (st.getD aid default).parent with
    | some p => markDead aid (vanishChain fuel p st)
    | none => markDead aid st

/-- `Bullet.vanish` (impl.py lines 193-198): set `vanished`, vanish all
active actions, and replace the action list with a fresh empty list. -/
def bulletVanishW (w : World) : World :=
  let st := w.bullet.actions.foldl (fun st aid => vanishChain st.length aid st) w.store
  { w with store := st
           bullet := { w.bullet with vanished := true, actions := [] } }

/-- `ChangeDirection.__call__` (parser.py lines 128-147). -/
def changeDirectionCall (term : IExpr) (dval : Expr)
    (dty : DirType) (aid : Nat) (w : World) : World :=
  let a := getA w aid
  let frames := term a.params w.bullet.rank
  let direction := radiansR (dval a.params w.bullet.rank)
  let a := { a with direction_frames := frames, aiming := false }
  match dty with
  | .sequence => setA w aid { a with direction := direction }
  | dty =>
    let p : ActionS × ℝ :=
      match dty with
      | .absolute => (a, direction - w.bullet.direction)
      | .relative => (a, direction)
      | _ => ({ a with aiming := true }, direction + aimOf w.bullet - w.bullet.direction)
    -- Normalize to [-pi, pi).
    let direction := pymod (p.2 + Real.pi) (2 * Real.pi) - Real.pi
    if frames ≤ 0 then
      { setA w aid p.1 with bullet := { w.bullet with
          direction := w.bullet.direction + direction } }
    else
      setA w aid { p.1 with direction := direction / (frames : ℝ) }

/-- `ChangeSpeed.__call__` (parser.py lines 213-227). -/
def changeSpeedCall (term : IExpr) (sval : Expr) (sty : SpdType)
    (aid : Nat) (w : World) : World :=
  let a := getA w aid
  let frames := term a.params w.bullet.rank
  let speed := sval a.params w.bullet.rank
  let a := { a with speed_frames := frames }
  if frames ≤ 0 then
    match sty with
    | .absolute => { setA w aid a with bullet := { w.bullet with speed := speed } }
    | .relative => { setA w aid a with bullet := { w.bullet with
        speed := w.bullet.speed + speed } }
    | .sequence => setA w aid a
  else
    match sty with
    | .sequence => setA w aid { a with speed := speed }
    | .relative => setA w aid { a with speed := speed / (frames : ℝ) }
    | .absolute => setA w aid { a with
        speed := (speed - w.bullet.speed) / (frames : ℝ) }

/-- `Accel.__call__` (parser.py lines 475-505). -/
def accelCall (term : IExpr) (horizontal vertical : Option (Expr × SpdType))
    (aid : Nat) (w : World) : World :=
  let a := getA w aid
  let params := a.params
  let rank := w.bullet.rank
  let frames := term params rank
  let a := { a with accel_frames := frames }
  let p1 : ActionS × World :=
    match horizontal with
    | none => (a, w)
    | some et =>
      let mx := et.1 params rank
      if frames ≤ 0 then
        match et.2 with
        | .absolute => (a, { w with bullet := { w.bullet with mx := mx } })
        | .relative => (a, { w with bullet := { w.bullet with mx := w.bullet.mx + mx } })
        | .sequence => (a, w)
      else
        match et.2 with
        | .sequence => ({ a with mx := mx }, w)
        | .absolute => ({ a with mx := (mx - w.bullet.mx) / (frames : ℝ) }, w)
        | .relative => ({ a with mx := mx / (frames : ℝ) }, w)
  let p2 : ActionS × World :=
    match vertical with
    | none => p1
    | some et =>
      let my := et.1 params rank
      if frames ≤ 0 then
        match et.2 with
        | .absolute => (p1.1, { p1.2 with bullet := { p1.2.bullet with my := my } })
        | .relative =>
          (p1.1, { p1.2 with bullet := { p1.2.bullet with my := p1.2.bullet.my + my } })
        | .sequence => p1
      else
        match et.2 with
        | .sequence => ({ p1.1 with my := my }, p1.2)
        | .absolute => ({ p1.1 with my := (my - p1.2.bullet.my) / (frames : ℝ) }, p1.2)
        | .relative => ({ p1.1 with my := my / (frames : ℝ) }, p1.2)
  setA p2.2 aid p2.1

/-- `Offset.__call__` (parser.py lines 739-741): absent coordinates
evaluate to 0. -/
def offsetEval (o : OffsetT) (params : List ℝ) (rank : ℝ) : ℝ × ℝ :=
  ((match o.x with | some e => e params rank | none => 0),
   (match o.y with | some e => e params rank | none => 0))

/-- `ActionDef.__call__`/`ActionRef.__call__` with `owner = None`, as
invoked from `BulletDef.__call__` (parser.py line 564): construct an
`Action(None, nodes, params, rank, 1)` without stepping it. -/
def allocDetached (al : ActLike) (params : List ℝ) (rank : ℝ)
    (w : World) : World × Nat :=
  match al with
  | .adef nodes => alloc w { nodes := nodes, parent := none, rpt := 1, params := params }
  | .aref ps nodes =>
    alloc w { nodes := nodes, parent := none, rpt := 1,
              params := ps.map (fun e => e params rank) }

def allocDetachedList (als : List ActLike) (params : List ℝ) (rank : ℝ)
    (w : World) : World × List Nat :=
  match als with
  | [] => (w, [])
  | al :: rest =>
    let p := allocDetached al params rank w
    let q := allocDetachedList rest params rank p.1
    (q.1, p.2 :: q.2)

/-- `BulletDef.__call__` (parser.py lines 563-571) together with
`BulletRef.__call__` (lines 605-607): returns the optional direction and
speed (with `radians` applied to directions, `Direction.__call__`), the
tag set, the appearance, and the freshly created child running actions. -/
def execBulletSpec : BulletSpec → List ℝ → ℝ → World →
    World × (Option (ℝ × DirType) × Option (ℝ × SpdType) ×
             Finset String × Option String × List Nat)
  | .bdef dir spd acts tags app, params, rank, w =>
    let p := allocDetachedList acts params rank w
    (p.1, (dir.map (fun d => (radiansR (d.1 params rank), d.2)),
           spd.map (fun s => (s.1 params rank, s.2)),
           tags.toFinset, app, p.2))
  | .bref ps b, params, rank, w =>
    execBulletSpec b (ps.map (fun e => e params rank)) rank w

/-- `FireDef.__call__` (parser.py lines 816-873).  `aid` is the running
action through which the fire executes (`action` in the source); note
that the method returns `None`, i.e. it does *not* suspend the opcode
loop. -/
def fireDefCall (f : FireD) (params : List ℝ) (aid : Nat) (w : World) : World :=
  let rank := w.bullet.rank
  let r := execBulletSpec f.bullet params rank w
  let w := r.1
  let bdir := r.2.1
  let bspd := r.2.2.1
  let btags := r.2.2.2.1
  let bapp := r.2.2.2.2.1
  let actIds := r.2.2.2.2.2
  let direction0 :=
    match f.direction with
    | some d => some (radiansR (d.1 params rank), d.2)
    | none => bdir
  let speed0 :=
    match f.speed with
    | some s => some (s.1 params rank, s.2)
    | none => bspd
  let tags := btags ∪ f.tags.toFinset
  let appearance := match f.appearance with | some s => some s | none => bapp
  let direction :=
    match direction0 with
    | some dt =>
      match dt.2 with
      | .aim => dt.1 + aimOf w.bullet
      | .sequence => dt.1 + (getA w aid).previous_fire_direction
      | .relative => dt.1 + w.bullet.direction
      | .absolute => dt.1
    | none => aimOf w.bullet
  let w := setA w aid { getA w aid with previous_fire_direction := direction }
  let speed :=
    match speed0 with
    | some st =>
      match st.2 with
      | .sequence => st.1 + (getA w aid).previous_fire_speed
      | .relative => st.1 + w.bullet.speed
      | .absolute => st.1
    | none => 1
  let w := setA w aid { getA w aid with previous_fire_speed := speed }
  let xy : ℝ × ℝ :=
    match f.offset with
    | some off =>
      let o := offsetEval off params rank
      match off.type with
      | .relative =>
        (w.bullet.x + Real.cos direction * o.1 + Real.sin direction * o.2,
         w.bullet.y + Real.sin direction * o.1 - Real.cos direction * o.2)
      | .absolute => (w.bullet.x + o.1, w.bullet.y + o.2)
    | none => (w.bullet.x, w.bullet.y)
  let appearance := match appearance with | some s => some s | none => w.bullet.appearance
  let nb : BulletS :=
    { x := xy.1, y := xy.2, px := xy.1, py := xy.2, direction := direction,
      speed := speed, target := w.bullet.target, rank := rank, tags := tags,
      appearance := appearance, actions := actIds }
  { w with created := w.created ++ [nb] }

/-- The three interpolation blocks at the top of `Action.step`
(impl.py lines 72-87): apply pending speed / direction / acceleration
deltas.  When `aiming` is set and the direction counter reaches 0, the
owner's `aim` is added instead of the stored delta (line 79-82). -/
def stepPhases (aid : Nat) (w : World) : World :=
  let a := getA w aid
  let p1 : World × ActionS :=
    if 0 < a.speed_frames then
      let a := { a with speed_frames := a.speed_frames - 1 }
      ({ w with bullet := { w.bullet with speed := w.bullet.speed + a.speed } }, a)
    else (w, a)
  let p2 : World × ActionS :=
    if 0 < p1.2.direction_frames then
      let a : ActionS := { p1.2 with direction_frames := p1.2.direction_frames - 1 }
      let w :=
        if a.aiming ∧ a.direction_frames ≤ 0 then
          { p1.1 with bullet := { p1.1.bullet with
              direction := p1.1.bullet.direction + aimOf p1.1.bullet } }
        else
          { p1.1 with bullet := { p1.1.bullet with
              direction := p1.1.bullet.direction + a.direction } }
      (w, a)
    else p1
  let p3 : World × ActionS :=
    if 0 < p2.2.accel_frames then
      let a := { p2.2 with accel_frames := p2.2.accel_frames - 1 }
      ({ p2.1 with bullet := { p2.1.bullet with
          mx := p2.1.bullet.mx + a.mx, my := p2.1.bullet.my + a.my } }, a)
    else p2
  setA p3.1 aid p3.2

/-- The four mutually recursive entry points of the interpreter, packed
into one fuel-indexed function so that the recursion is structural:
`astep aid` is `Action.step` (impl.py lines 69-118); `loop aid` its
opcode loop (lines 99-117); `node n aid` is the `__call__` of the node
`n` with the running action `aid`; `adef nodes params rpt aid` is
`ActionDef.__call__` with an owner (parser.py lines 651-658). -/
inductive Call where
  | astep (aid : Nat)
  | loop (aid : Nat)
  | node (n : Node) (aid : Nat)
  | adef (nodes : List Node) (params : List ℝ) (rpt : Int) (aid : Nat)

/-- The interpreter.  The `Bool` result is the Python truthiness of the
return value (suspend flag for nodes; `Action.step` returns `None` and
`ActionDef.__call__` returns the child, which is always truthy). -/
def interp : Nat → Call → World → World × Bool
  | 0, _, w => (w, true)
  | fuel + 1, c, w =>
    match c with
    | .astep aid =>
      let w := stepPhases aid w
      let a := getA w aid
      match a.pc with
      | none => (w, false)
      | some _ =>
        if 0 < a.wait_frames then
          (setA w aid { a with wait_frames := a.wait_frames - 1 }, false)
        else
          interp fuel (.loop aid) w
    | .loop aid =>
      -- while True: self.pc += 1; try: action = self.actions[self.pc] ...
      let a := getA w aid
      match a.pc with
      | none => (w, false)
      | some pcv =>
        let pcv := pcv + 1
        let w := setA w aid { a with pc := some pcv }
        if h : 0 ≤ pcv ∧ pcv.toNat < a.nodes.length then
          let node := a.nodes.get ⟨pcv.toNat, h.2⟩
          let r := interp fuel (.node node aid) w
          if r.2 then (r.1, false) else interp fuel (.loop aid) r.1
        else
          -- IndexError: self.repeat -= 1 ...
          let a := getA w aid
          let rpt := a.rpt - 1
          if rpt ≤ 0 then
            let a := { a with rpt := rpt, pc := none, finished := true }
            let w := setA w aid a
            match a.parent with
            | some pid =>
              let w := setA w pid (copyState (getA w pid) a)
              (bulletReplace w aid pid, false)
            | none => (w, false)
          else
            match a.nodes with
            | [] =>
              -- `self.actions[0]` on an empty list: in Python this
              -- IndexError escapes `step` uncaught; the state at that
              -- point is returned.  (Unreachable from any document with
              -- nonempty actions.)
              (setA w aid { a with rpt := rpt, pc := some 0 }, false)
            | n0 :: _ =>
              let w := setA w aid { a with rpt := rpt, pc := some 0 }
              let r := interp fuel (.node n0 aid) w
              if r.2 then (r.1, false) else interp fuel (.loop aid) r.1
    | .adef nodes params rpt aid =>
      -- Action = type(action); parent = action; child = Action(parent,
      -- self.actions, params, rank, repeat); owner.replace(parent, child);
      -- child.step(owner, created); return child  (truthy)
      let parentS := getA w aid
      let child := copyState
        { nodes := nodes, parent := some aid, rpt := rpt, params := params } parentS
      let p := alloc w child
      let w := bulletReplace p.1 aid p.2
      ((interp fuel (.astep p.2) w).1, true)
    | .node n aid =>
      let a := getA w aid
      let params := a.params
      let rank := w.bullet.rank
      match n with
      | .changeDirection term dval dty => (changeDirectionCall term dval dty aid w, false)
      | .changeSpeed term sval sty => (changeSpeedCall term sval sty aid w, false)
      | .accelN term hor ver => (accelCall term hor ver aid w, false)
      | .waitN frames =>
        (setA w aid { a with wait_frames := frames params rank }, true)
      | .tagN t =>
        ({ w with bullet := { w.bullet with tags := insert t w.bullet.tags } }, false)
      | .untagN t =>
        -- try: owner.tags.remove(tag) except KeyError: pass
        (if t ∈ w.bullet.tags then
          { w with bullet := { w.bullet with tags := w.bullet.tags.erase t } }
         else w, false)
      | .appearanceN s =>
        -- owner.apearance = self.appearance   (parser.py line 318, sic)
        ({ w with bullet := { w.bullet with apearance := some s } }, false)
      | .vanishN => (bulletVanishW w, true)
      | .repeatN times inner =>
        let rpt := times params rank
        match inner with
        | .adef nodes => interp fuel (.adef nodes params rpt aid) w
        | .aref ps nodes =>
          interp fuel (.adef nodes (ps.map (fun e => e params rank)) rpt aid) w
      | .ifN cond thenNodes elseNodes =>
        if cond params rank ≠ 0 then interp fuel (.adef thenNodes params 1 aid) w
        else
          match elseNodes with
          | some ns => interp fuel (.adef ns params 1 aid) w
          | none => (w, false)
      | .fireN f => (fireDefCall f params aid w, false)
      | .fireRefN ps f =>
        (fireDefCall f (ps.map (fun e => e params rank)) aid w, false)
      | .actionN nodes => interp fuel (.adef nodes params 1 aid) w
      | .actionRefN ps nodes =>
        interp fuel (.adef nodes (ps.map (fun e => e params rank)) 1 aid) w

/-- `Action.step` (impl.py lines 69-118). -/
def actionStep (fuel aid : Nat) (w : World) : World :=
  (interp fuel (.astep aid) w).1

/-- Execution of a single node (`__call__`); returns the suspend flag. -/
def execNode (fuel : Nat) (n : Node) (aid : Nat) (w : World) : World × Bool :=
  interp fuel (.node n aid) w

/-- `Bullet.step` (impl.py lines 212-238).  The `created` list of the
result is what the Python method returns.  The iteration over
`self.actions` is modelled over the entry snapshot: within one step,
`replace` only ever swaps the slot of the action currently being
stepped (children replace parents in place), and after a `vanish` the
attribute holds a fresh empty list while the loop keeps walking the old
one — in both cases the objects stepped are the snapshot entries.
`actionsPhase` is lines 220-225 (reset `created`, step every action,
accumulate `finished`); `bulletStep` is the whole method. -/
def actionsPhase (fuel : Nat) (w : World) : World × Bool :=
  let w := { w with created := [] }
  let snap := w.bullet.actions
  let start : World × Bool := (w, w.bullet.vanished)
  snap.foldl
    (fun p aid =>
      let w' := actionStep fuel aid p.1
      (w', p.2 && (getA w' aid).finished)) start

def bulletStep (fuel : Nat) (w : World) : World :=
  let p := actionsPhase fuel w
  let w := p.1
  let fin := if p.2 then w.bullet.actions.all (fun aid => (getA w aid).finished)
             else false
  let b := w.bullet
  let speed := b.speed
  let direction := b.direction
  let b := { b with
    finished := fin
    px := b.x
    py := b.y
    x := b.x + b.mx + Real.sin direction * speed
    y := b.y + -b.my + Real.cos direction * speed }
  { w with bullet := b }

/-- `k` consecutive calls of `Bullet.step`. -/
def stepN (fuel : Nat) : Nat → World → World
  | 0, w => w
  | k + 1, w => stepN fuel k (bulletStep fuel w)

/-! ### Concrete instances used by witnesses and counterexamples -/

/-- A constant-valued `NumberDef`. -/
def exprC (c : ℝ) : Expr := fun _ _ => c

/-- A constant-valued `INumberDef`. -/
def iexprC (c : Int) : IExpr := fun _ _ => c

/-- A bullet whose appearance is `"bar"`. -/
def wApp : World := { bullet := { appearance := some "bar" }, store := [] }

/-- A bullet carrying the single tag `"a"`. -/
def wTag : World := { bullet := { tags := {"a"} }, store := [] }

/-- A default bullet with one dead running action (`pc = None`):
the setting for observing pure interpolation stepping. -/
def wCd : World :=
  { bullet := { actions := [0] }
    store := [{ nodes := [], parent := none, rpt := 1, params := [], pc := none }] }

/-- `changeDirection` node, type `aim`, value 90 (degrees), term 2. -/
def cdAim : Node := .changeDirection (iexprC 2) (exprC 90) DirType.aim

/-- `<fire><bullet/></fire>`: fire definition with a plain bullet and
no direction, speed, offset, tags or appearance anywhere. -/
def simpleFire : FireD := .mk (.bdef none none [] [] none) none none none [] none

/-- The direction carried by a bullet definition, looked up through any
chain of `bulletRef`s (refs do not change whether a direction exists). -/
def BulletSpec.dirOf : BulletSpec → Option (Expr × DirType)
  | .bdef d _ _ _ _ => d
  | .bref _ b => b.dirOf

/-- The speed carried by a bullet definition, through refs. -/
def BulletSpec.spdOf : BulletSpec → Option (Expr × SpdType)
  | .bdef _ s _ _ _ => s
  | .bref _ b => b.spdOf

/-- Fire definition for the offset scenario: absolute direction 0 and a
relative offset `(1, –)` with no `y` child. -/
def fireOffC7 : FireD :=
  .mk (.bdef none none [] [] none) (some (exprC 0, DirType.absolute)) none
    (some ⟨OffType.relative, some (exprC 1), none⟩) [] none

/-- Owner world for the offset scenario: default bullet at the origin,
one idle running action in the store. -/
def wC7 : World :=
  { bullet := {}, store := [{ nodes := [], parent := none, rpt := 1, params := [] }] }

instance : Inhabited BulletS := ⟨{}⟩

/-- The bullet appended to `created` by a `FireDef.__call__` (it always
appends exactly one). -/
def firedBullet (f : FireD) (params : List ℝ) (aid : Nat) (w : World) : BulletS :=
  (fireDefCall f params aid w).created.getLastD default

/-- Top-level running action holding `<repeat><times>n</times>
<action><fire><bullet/></fire></action></repeat>`, as built by
`Bullet.FromDocument` (parent `None`, `repeat = 1`, `pc = -1`). -/
def c4Parent (n : Int) : ActionS :=
  { nodes := [.repeatN (iexprC n) (.adef [.fireN simpleFire])]
    parent := none, rpt := 1, params := [] }

/-- Owner bullet for the repeat/fire scenario: all defaults, one
running action. -/
def c4World (n : Int) : World :=
  { bullet := { actions := [0] }, store := [c4Parent n] }

/-- The bullet spawned by each fire of the repeat/fire scenario:
direction `aim = 0`, speed 1, at the owner's position. -/
def c4Spawn : BulletS := { speed := 1 }

/-- Parent action after its `repeat` opcode was entered (`pc = 0`). -/
def c4P1 (n : Int) : ActionS :=
  { nodes := [.repeatN (iexprC n) (.adef [.fireN simpleFire])]
    parent := none, rpt := 1, params := [], pc := some 0 }

/-- Owner world with the parent action at `pc = 0`. -/
def c4WorldP (n : Int) : World :=
  { bullet := { actions := [0] }, store := [c4P1 n], created := [] }

/-- Child action of the repeat just after creation (`pc = -1`, no fire
state yet). -/
def c4CInit (m : Int) : ActionS :=
  { nodes := [.fireN simpleFire], parent := some 0, rpt := m, params := [] }

/-- Child action after the program counter moved to the fire opcode but
before the first fire. -/
def c4CInit0 (m : Int) : ActionS :=
  { nodes := [.fireN simpleFire], parent := some 0, rpt := m, params := []
    pc := some 0 }

/-- Child action after at least one fire: `previous_fire_speed = 1`,
program counter `q`, `m` repeats left. -/
def c4Ca (m : Int) (q : Option Int) : ActionS :=
  { nodes := [.fireN simpleFire], parent := some 0, rpt := m, params := []
    pc := q, previous_fire_speed := 1 }

/-- Owner world with the child `a` active in the parent's slot. -/
def c4W (n : Int) (a : ActionS) (c : List BulletS) : World :=
  { bullet := { actions := [1] }, store := [c4P1 n, a], created := c }

/-- Child action once its repeats are exhausted. -/
def c4Cfin : ActionS :=
  { nodes := [.fireN simpleFire], parent := some 0, rpt := 0, params := []
    pc := none, finished := true, previous_fire_speed := 1 }

/-- Parent action after adopting the finished child's state. -/
def c4P1fin (n : Int) : ActionS :=
  { nodes := [.repeatN (iexprC n) (.adef [.fireN simpleFire])]
    parent := none, rpt := 1, params := [], pc := some 0
    previous_fire_speed := 1 }

/-- End-of-frame-1 state before integration: child finished, parent
back in the active list. -/
def c4WmidFin (n : Int) (c : List BulletS) : World :=
  { bullet := { actions := [0] }, store := [c4P1fin n, c4Cfin], created := c }

/-- Parent action after its own frame ends on the second step. -/
def c4P1done (n : Int) : ActionS :=
  { nodes := [.repeatN (iexprC n) (.adef [.fireN simpleFire])]
    parent := none, rpt := 0, params := [], pc := none, finished := true
    previous_fire_speed := 1 }

/-- Child action finished with `m` repeats recorded (general form of
`c4Cfin` used while unrolling the loop). -/
def c4CfinM (m : Int) : ActionS :=
  { nodes := [.fireN simpleFire], parent := some 0, rpt := m, params := []
    pc := none, finished := true, previous_fire_speed := 1 }

/-- Stable state from the second `Bullet.step` on. -/
def c4Post2 (n : Int) : World :=
  { bullet := { actions := [0] }, store := [c4P1done n, c4Cfin], created := [] }

end

/-! ### Document loading: action-definition registration (C6)

`BulletML.FromXML` (parser.py lines 945-988) walks the root's children;
`ActionDef.FromXML` (lines 635-649) parses an `<action>` element and
executes `doc._actions[element.get("label")] = dfn` *after* parsing its
children, so definitions register in post-order and a repeated label
overwrites the stored definition (a Python dict keeps the original
position of an updated key).  Nested `<action>` elements reached
through `repeat`, `if` (`then`/`else`), `fire/bullet` and `action`
itself also register.  A parsed definition is represented here by the
element it was parsed from; elements carry exactly the data the
registration logic reads (tag, `label` attribute, children). -/

inductive Xml where
  | el (tag : String) (label : Option String) (children : List Xml)

mutual

def decEqXml : (a b : Xml) → Decidable (a = b)
  | .el t1 l1 c1, .el t2 l2 c2 => by
    haveI : Decidable (c1 = c2) := decEqXmlL c1 c2
    exact decidable_of_iff (t1 = t2 ∧ l1 = l2 ∧ c1 = c2) (by simp)

def decEqXmlL : (as bs : List Xml) → Decidable (as = bs)
  | [], [] => isTrue rfl
  | [], _ :: _ => isFalse (by simp)
  | _ :: _, [] => isFalse (by simp)
  | a :: as, b :: bs => by
    haveI : Decidable (a = b) := decEqXml a b
    haveI : Decidable (as = bs) := decEqXmlL as bs
    exact decidable_of_iff (a = b ∧ as = bs) (by simp)

end

instance : DecidableEq Xml := decEqXml

def Xml.tag : Xml → String
  | .el t _ _ => t

def Xml.label : Xml → Option String
  | .el _ l _ => l

def Xml.children : Xml → List Xml
  | .el _ _ c => c

mutual

/-- The `doc._actions[...] = dfn` assignments made while loading the
root's children (`BulletML.FromXML` lines 963-966; `CONSTRUCTORS` maps
`bullet`, `action` and `fire`), in execution order. -/
def regsRoot : List Xml → List (Option String × Xml)
  | [] => []
  | .el t l ch :: rest =>
    (if t = "action" then regsActCh ch ++ [(l, .el t l ch)]
     else if t = "bullet" then regsBulCh ch
     else if t = "fire" then regsFireCh ch
     else []) ++ regsRoot rest

/-- Registrations from the children loop of `ActionDef.FromXML` (lines
638-646): tags in `ActionDef.CONSTRUCTORS` that can reach another
`ActionDef` are `repeat`, `fire`, `if` and `action`; the remaining
constructors parse no nested action definition. -/
def regsActCh : List Xml → List (Option String × Xml)
  | [] => []
  | .el t l ch :: rest =>
    (if t = "repeat" then regsRptCh ch
     else if t = "fire" then regsFireCh ch
     else if t = "if" then regsIfCh ch
     else if t = "action" then regsActCh ch ++ [(l, .el t l ch)]
     else []) ++ regsActCh rest

/-- `Repeat.FromXML` (lines 352-366): an `action` child is parsed with
`ActionDef.FromXML` (an `actionRef` child registers nothing). -/
def regsRptCh : List Xml → List (Option String × Xml)
  | [] => []
  | .el t l ch :: rest =>
    (if t = "action" then regsActCh ch ++ [(l, .el t l ch)] else []) ++ regsRptCh rest

/-- `If.FromXML` (lines 397-412): `then` and `else` children are parsed
with `ActionDef.FromXML` (and registered under *their* label). -/
def regsIfCh : List Xml → List (Option String × Xml)
  | [] => []
  | .el t l ch :: rest =>
    (if t = "then" then regsActCh ch ++ [(l, .el t l ch)]
     else if t = "else" then regsActCh ch ++ [(l, .el t l ch)]
     else []) ++ regsIfCh rest

/-- `FireDef.FromXML` (lines 783-815): a `bullet` child is parsed with
`BulletDef.FromXML`. -/
def regsFireCh : List Xml → List (Option String × Xml)
  | [] => []
  | .el t l ch :: rest =>
    (if t = "bullet" then regsBulCh ch else []) ++ regsFireCh rest

/-- `BulletDef.FromXML` (lines 540-561): `action` children are parsed
with `ActionDef.FromXML`. -/
def regsBulCh : List Xml → List (Option String × Xml)
  | [] => []
  | .el t l ch :: rest =>
    (if t = "action" then regsActCh ch ++ [(l, .el t l ch)] else []) ++ regsBulCh rest

end

/-- One Python dict assignment `d[k] = v`: an existing key keeps its
position and gets the new value; a new key is appended. -/
def pydictInsert (k : Option String) (v : Xml)
    (d : List (Option String × Xml)) : List (Option String × Xml) :=
  if d.any (fun p => p.1 = k) then d.map (fun p => if p.1 = k then (k, v) else p)
  else d ++ [(k, v)]

/-- The dict built by a sequence of assignments, as an association list
in iteration order. -/
def pydictOfList (l : List (Option String × Xml)) : List (Option String × Xml) :=
  l.foldl (fun d p => pydictInsert p.1 p.2 d) []

/-- `str.startswith`, written out over the character lists. -/
def listPrefixOf : List Char → List Char → Bool
  | [], _ => true
  | _ :: _, [] => false
  | a :: as, b :: bs => (a = b) && listPrefixOf as bs

/-- `if name and name.startswith("top")` (parser.py line 979): `None`
and the empty string are falsy. -/
def topKey : Option String → Bool
  | none => false
  | some s => (!(s == "")) && listPrefixOf "top".data s.data

/-- `doc.actions` as computed by `BulletML.FromXML` lines 978-979 for a
document whose references all resolve. -/
def docTopActions (root : Xml) : List Xml :=
  ((pydictOfList (regsRoot root.children)).filter (fun p => topKey p.1)).map
    (fun p => p.2)

/-! The spec's description of the top-action list, written from its
words: the action definitions of the document in document order
(pre-order), keeping those whose label starts with `top`. -/

mutual

def preRoot : List Xml → List Xml
  | [] => []
  | .el t l ch :: rest =>
    (if t = "action" then .el t l ch :: preActCh ch
     else if t = "bullet" then preBulCh ch
     else if t = "fire" then preFireCh ch
     else []) ++ preRoot rest

def preActCh : List Xml → List Xml
  | [] => []
  | .el t l ch :: rest =>
    (if t = "repeat" then preRptCh ch
     else if t = "fire" then preFireCh ch
     else if t = "if" then preIfCh ch
     else if t = "action" then .el t l ch :: preActCh ch
     else []) ++ preActCh rest

def preRptCh : List Xml → List Xml
  | [] => []
  | .el t l ch :: rest =>
    (if t = "action" then .el t l ch :: preActCh ch else []) ++ preRptCh rest

def preIfCh : List Xml → List Xml
  | [] => []
  | .el t l ch :: rest =>
    (if t = "then" then .el t l ch :: preActCh ch
     else if t = "else" then .el t l ch :: preActCh ch
     else []) ++ preIfCh rest

def preFireCh : List Xml → List Xml
  | [] => []
  | .el t l ch :: rest =>
    (if t = "bullet" then preBulCh ch else []) ++ preFireCh rest

def preBulCh : List Xml → List Xml
  | [] => []
  | .el t l ch :: rest =>
    (if t = "action" then .el t l ch :: preActCh ch else []) ++ preBulCh rest

end

/-- The spec-described top-action list: document-order action
definitions whose label starts with `top`. -/
def specTopActions (root : Xml) : List Xml :=
  (preRoot root.children).filter (fun d => topKey d.label)

mutual

/-- All `label` attributes in a forest (used to state that a subtree
carries no labels). -/
def xlabelsL : List Xml → List String
  | [] => []
  | c :: rest => xlabels c ++ xlabelsL rest

def xlabels : Xml → List String
  | .el _ l ch => (match l with | some s => [s] | none => []) ++ xlabelsL ch

end

/-- Counterexample document: two top-level actions, both labelled
`top`, with different bodies. -/
def c6doc : Xml :=
  .el "bulletml" none
    [ .el "action" (some "top") [.el "vanish" none []],
      .el "action" (some "top") [] ]

/-- Witness document for the amended claim: distinct labels, only on
root children; one unlabelled action definition nested in a fired
bullet. -/
def c6docW : Xml :=
  .el "bulletml" none
    [ .el "action" (some "topMain")
        [.el "fire" none [.el "bullet" none [.el "action" none [.el "vanish" none []]]]],
      .el "action" (some "aux") [] ]

/-! ### Numeric expressions (C8)

`NumberDef.__init__` (expr.py lines 36-65) lowers the string, rewrites
`$N` / `$rand` / `$rank`, and evaluates the result twice: once with an
empty environment (constants fold; any name raises `NameError`), and on
`NameError` once more with `random`, `rank = 1` and `params = [0]*99`
bound, to validate the expression.  Every failure in this phase is
re-raised as `ExprError`.  `NumberDef.__call__` (lines 67-72) evaluates
with the runtime `rank`/`params` and *no* exception handler.

The embedding covers the arithmetic sublanguage the documents use
(numerals without exponents, `$`-variables, identifiers, `+ - * /`,
unary sign, parentheses) over `ℚ`; `random()` is modelled as a stream
`ℕ → ℚ` consumed left to right.  A bare `params` or `random` reference
evaluates in Python to a non-number object; any complete expression
containing one fails its compile-time validation (`TypeError`), so both
are modelled as a `typeError` failure. -/

inductive PyErr where
  | nameError (s : String)
  | zeroDivision
  | typeError
  | indexError
  | syntaxError
  | exprError (s : String)
deriving DecidableEq

/-- `"__" in expr` (expr.py line 42), over the character list. -/
def hasDU : List Char → Bool
  | '_' :: '_' :: _ => true
  | _ :: rest => hasDU rest
  | [] => false

inductive Tok where
  | num (q : ℚ)
  | name (s : String)
  | trand
  | trank
  | tparam (i : Int)
  | plus
  | minus
  | star
  | slash
  | lparen
  | rparen
deriving DecidableEq

def digitsToNat : List Char → ℕ → ℕ
  | [], acc => acc
  | c :: cs, acc => digitsToNat cs (acc * 10 + (c.toNat - 48))

def takeDigits : List Char → List Char × List Char
  | [] => ([], [])
  | c :: cs =>
    if c.isDigit then
      let p := takeDigits cs
      (c :: p.1, p.2)
    else ([], c :: cs)

def isIdentStart (c : Char) : Bool := c.isAlpha || c = '_'

def isIdentChar (c : Char) : Bool := c.isAlphanum || c = '_'

def takeIdent : List Char → List Char × List Char
  | [] => ([], [])
  | c :: cs =>
    if isIdentChar c then
      let p := takeIdent cs
      (c :: p.1, p.2)
    else ([], c :: cs)

/-- Tokenizer for the (lowered, `$`-substituted) expression string. -/
def tokenize : ℕ → List Char → Except PyErr (List Tok)
  | 0, _ => .error .syntaxError
  | _ + 1, [] => .ok []
  | fuel + 1, c :: cs =>
    if c = ' ' then tokenize fuel cs
    else if c.isDigit || c = '.' then
      let p1 := takeDigits (c :: cs)
      match p1.2 with
      | '.' :: r2 =>
        let p2 := takeDigits r2
        if p1.1 = [] ∧ p2.1 = [] then .error .syntaxError
        else
          match tokenize fuel p2.2 with
          | .ok ts => .ok (.num ((digitsToNat p1.1 0 : ℚ) +
              (digitsToNat p2.1 0 : ℚ) / ((10 : ℚ) ^ p2.1.length)) :: ts)
          | .error e => .error e
      | r2 =>
        match tokenize fuel r2 with
        | .ok ts => .ok (.num (digitsToNat p1.1 0 : ℚ) :: ts)
        | .error e => .error e
    else if c = '+' then
      match tokenize fuel cs with
      | .ok ts => .ok (.plus :: ts)
      | .error e => .error e
    else if c = '-' then
      match tokenize fuel cs with
      | .ok ts => .ok (.minus :: ts)
      | .error e => .error e
    else if c = '*' then
      match tokenize fuel cs with
      | .ok ts => .ok (.star :: ts)
      | .error e => .error e
    else if c = '/' then
      match tokenize fuel cs with
      | .ok ts => .ok (.slash :: ts)
      | .error e => .error e
    else if c = '(' then
      match tokenize fuel cs with
      | .ok ts => .ok (.lparen :: ts)
      | .error e => .error e
    else if c = ')' then
      match tokenize fuel cs with
      | .ok ts => .ok (.rparen :: ts)
      | .error e => .error e
    else if c = '$' then
      let pd := takeDigits cs
      if pd.1 ≠ [] then
        match tokenize fuel pd.2 with
        | .ok ts => .ok (.tparam ((digitsToNat pd.1 0 : Int) - 1) :: ts)
        | .error e => .error e
      else
        match cs with
        | 'r' :: 'a' :: 'n' :: 'd' :: r =>
          match tokenize fuel r with
          | .ok ts => .ok (.trand :: ts)
          | .error e => .error e
        | 'r' :: 'a' :: 'n' :: 'k' :: r =>
          match tokenize fuel r with
          | .ok ts => .ok (.trank :: ts)
          | .error e => .error e
        | _ => .error .syntaxError
    else if isIdentStart c then
      let p := takeIdent (c :: cs)
      match tokenize fuel p.2 with
      | .ok ts => .ok (.name (String.mk p.1) :: ts)
      | .error e => .error e
    else .error .syntaxError

/-- `str.lower` for the ASCII range the tokenizer cares about. -/
def charLower (c : Char) : Char :=
  if 'A' ≤ c ∧ c ≤ 'Z' then Char.ofNat (c.toNat + 32) else c

def tokenizeStr (s : String) : Except PyErr (List Tok) :=
  let cs := s.data.map charLower
  tokenize (cs.length + 1) cs

inductive Ast where
  | num (q : ℚ)
  | name (s : String)
  | rand
  | rank
  | param (i : Int)
  | neg (a : Ast)
  | add (a b : Ast)
  | sub (a b : Ast)
  | mul (a b : Ast)
  | div (a b : Ast)
deriving DecidableEq

mutual

/-- `atom := number | name | rank | random() | params[i] | ( expr )`. -/
def parseAtom : ℕ → List Tok → Except PyErr (Ast × List Tok)
  | 0, _ => .error .syntaxError
  | fuel + 1, ts =>
    match ts with
    | .num q :: rest => .ok (.num q, rest)
    | .name s :: rest => .ok (.name s, rest)
    | .trand :: rest => .ok (.rand, rest)
    | .trank :: rest => .ok (.rank, rest)
    | .tparam i :: rest => .ok (.param i, rest)
    | .lparen :: rest =>
      match parseE fuel rest with
      | .ok (a, .rparen :: rest2) => .ok (a, rest2)
      | _ => .error .syntaxError
    | _ => .error .syntaxError

/-- `factor := (+|-)* atom`. -/
def parseF : ℕ → List Tok → Except PyErr (Ast × List Tok)
  | 0, _ => .error .syntaxError
  | fuel + 1, .minus :: rest =>
    match parseF fuel rest with
    | .ok p => .ok (.neg p.1, p.2)
    | .error e => .error e
  | fuel + 1, .plus :: rest => parseF fuel rest
  | fuel + 1, ts => parseAtom fuel ts

/-- `term := factor ((*|/) factor)*`. -/
def parseTrest : ℕ → Ast → List Tok → Except PyErr (Ast × List Tok)
  | 0, _, _ => .error .syntaxError
  | fuel + 1, acc, .star :: rest =>
    match parseF fuel rest with
    | .ok p => parseTrest fuel (.mul acc p.1) p.2
    | .error e => .error e
  | fuel + 1, acc, .slash :: rest =>
    match parseF fuel rest with
    | .ok p => parseTrest fuel (.div acc p.1) p.2
    | .error e => .error e
  | _ + 1, acc, ts => .ok (acc, ts)

def parseT : ℕ → List Tok → Except PyErr (Ast × List Tok)
  | 0, _ => .error .syntaxError
  | fuel + 1, ts =>
    match parseF fuel ts with
    | .ok p => parseTrest fuel p.1 p.2
    | .error e => .error e

/-- `expr := term ((+|-) term)*`. -/
def parseErest : ℕ → Ast → List Tok → Except PyErr (Ast × List Tok)
  | 0, _, _ => .error .syntaxError
  | fuel + 1, acc, .plus :: rest =>
    match parseT fuel rest with
    | .ok p => parseErest fuel (.add acc p.1) p.2
    | .error e => .error e
  | fuel + 1, acc, .minus :: rest =>
    match parseT fuel rest with
    | .ok p => parseErest fuel (.sub acc p.1) p.2
    | .error e => .error e
  | _ + 1, acc, ts => .ok (acc, ts)

def parseE : ℕ → List Tok → Except PyErr (Ast × List Tok)
  | 0, _ => .error .syntaxError
  | fuel + 1, ts =>
    match parseT fuel ts with
    | .ok p => parseErest fuel p.1 p.2
    | .error e => .error e

end

/-- Parse a whole token list (trailing tokens are a syntax error). -/
def parseToks (ts : List Tok) : Except PyErr Ast :=
  match parseE (4 * ts.length + 8) ts with
  | .ok (a, []) => .ok a
  | .ok (_, _ :: _) => .error .syntaxError
  | .error e => .error e

/-- The first evaluation (expr.py line 53): empty globals, so every
name — including `random`, `rank` and `params` — raises `NameError`;
arithmetic on literals runs normally (left to right). -/
def eval1 : Ast → Except PyErr ℚ
  | .num q => .ok q
  | .name s => .error (.nameError s)
  | .rand => .error (.nameError "random")
  | .rank => .error (.nameError "rank")
  | .param _ => .error (.nameError "params")
  | .neg a =>
    match eval1 a with
    | .ok q => .ok (-q)
    | .error e => .error e
  | .add a b =>
    match eval1 a with
    | .error e => .error e
    | .ok x =>
      match eval1 b with
      | .error e => .error e
      | .ok y => .ok (x + y)
  | .sub a b =>
    match eval1 a with
    | .error e => .error e
    | .ok x =>
      match eval1 b with
      | .error e => .error e
      | .ok y => .ok (x - y)
  | .mul a b =>
    match eval1 a with
    | .error e => .error e
    | .ok x =>
      match eval1 b with
      | .error e => .error e
      | .ok y => .ok (x * y)
  | .div a b =>
    match eval1 a with
    | .error e => .error e
    | .ok x =>
      match eval1 b with
      | .error e => .error e
      | .ok y => if y = 0 then .error .zeroDivision else .ok (x / y)

/-- Evaluation with `random`, `rank` and `params` bound (expr.py lines
56 and 72).  The second component threads the random stream position.
Negative `$N` indices wrap around as in Python. -/
def eval2 : Ast → (ℕ → ℚ) → ℚ → List ℚ → ℕ → Except PyErr (ℚ × ℕ)
  | .num q, _, _, _, ctr => .ok (q, ctr)
  | .name s, _, rk, _, ctr =>
    if s = "rank" then .ok (rk, ctr)
    else if s = "params" then .error .typeError
    else if s = "random" then .error .typeError
    else .error (.nameError s)
  | .rand, rnd, _, _, ctr => .ok (rnd ctr, ctr + 1)
  | .rank, _, rk, _, ctr => .ok (rk, ctr)
  | .param i, _, _, ps, ctr =>
    let idx : Option ℕ :=
      if 0 ≤ i then some i.toNat
      else if i.natAbs ≤ ps.length then some (ps.length - i.natAbs) else none
    match idx with
    | some j =>
      match ps.get? j with
      | some v => .ok (v, ctr)
      | none => .error .indexError
    | none => .error .indexError
  | .neg a, rnd, rk, ps, ctr =>
    match eval2 a rnd rk ps ctr with
    | .ok p => .ok (-p.1, p.2)
    | .error e => .error e
  | .add a b, rnd, rk, ps, ctr =>
    match eval2 a rnd rk ps ctr with
    | .error e => .error e
    | .ok p =>
      match eval2 b rnd rk ps p.2 with
      | .error e => .error e
      | .ok q => .ok (p.1 + q.1, q.2)
  | .sub a b, rnd, rk, ps, ctr =>
    match eval2 a rnd rk ps ctr with
    | .error e => .error e
    | .ok p =>
      match eval2 b rnd rk ps p.2 with
      | .error e => .error e
      | .ok q => .ok (p.1 - q.1, q.2)
  | .mul a b, rnd, rk, ps, ctr =>
    match eval2 a rnd rk ps ctr with
    | .error e => .error e
    | .ok p =>
      match eval2 b rnd rk ps p.2 with
      | .error e => .error e
      | .ok q => .ok (p.1 * q.1, q.2)
  | .div a b, rnd, rk, ps, ctr =>
    match eval2 a rnd rk ps ctr with
    | .error e => .error e
    | .ok p =>
      match eval2 b rnd rk ps p.2 with
      | .error e => .error e
      | .ok q => if q.1 = 0 then .error .zeroDivision else .ok (p.1 / q.1, q.2)

/-- A compiled `NumberDef`: the parsed expression, the constant-folded
value when the first evaluation succeeded (`self._value`), and the
original string. -/
structure NDef where
  ast : Ast
  value : Option ℚ
  string : String
deriving DecidableEq

/-- `NumberDef.__init__` (expr.py lines 36-65): the `"__"` check, the
parse, the constant-fold attempt and the `NameError`-triggered trial
evaluation (`rank = 1`, `params = [0] * 99`, `trial` as the random
source); every failure becomes `ExprError` (line 63-64). -/
def numberDefCompile (s : String) (trial : ℕ → ℚ) : Except PyErr NDef :=
  if hasDU s.data then .error (.exprError s)
  else
    match tokenizeStr s with
    | .error _ => .error (.exprError s)
    | .ok ts =>
      match parseToks ts with
      | .error _ => .error (.exprError s)
      | .ok ast =>
        match eval1 ast with
        | .ok v => .ok ⟨ast, some v, s⟩
        | .error (.nameError _) =>
          match eval2 ast trial 1 (List.replicate 99 0) 0 with
          | .ok _ => .ok ⟨ast, none, s⟩
          | .error _ => .error (.exprError s)
        | .error _ => .error (.exprError s)

/-- `NumberDef.__call__` (expr.py lines 67-72): return the folded
constant, or evaluate with the runtime environment — with no exception
handling whatsoever. -/
def numberDefCall (nd : NDef) (ps : List ℚ) (rk : ℚ) (rnd : ℕ → ℚ) : Except PyErr ℚ :=
  match nd.value with
  | some v => .ok v
  | none =>
    match eval2 nd.ast rnd rk ps 0 with
    | .ok p => .ok p.1
    | .error e => .error e

/-- The compiled form of `"1/$rand"`. -/
def c8nd : NDef := ⟨Ast.div (Ast.num 1) Ast.rand, none, "1/$rand"⟩



end BML

/-! ## Theorems -/

namespace BML

/-! ### Generic state helper lemmas -/

theorem setA_bullet (w : World) (aid : Nat) (a : ActionS) :
    (setA w aid a).bullet = w.bullet := rfl

theorem setA_created (w : World) (aid : Nat) (a : ActionS) :
    (setA w aid a).created = w.created := rfl

theorem setA_store_length (w : World) (aid : Nat) (a : ActionS) :
    (setA w aid a).store.length = w.store.length := by
  simp [setA]

theorem getA_setA_self (w : World) (aid : Nat) (a : ActionS)
    (h : aid < w.store.length) : getA (setA w aid a) aid = a := by
  simp [getA, setA, List.getD, List.getElem?_set_self', h]

theorem store_getD_set_self (st : List ActionS) (aid : Nat) (r : ActionS)
    (h : aid < st.length) : (st.set aid r).getD aid default = r := by
  simp [List.getD, List.getElem?_set_self', h]

theorem bulletReplace_xy (w : World) (o n : Nat) :
    (bulletReplace w o n).bullet.x = w.bullet.x ∧
    (bulletReplace w o n).bullet.y = w.bullet.y := ⟨rfl, rfl⟩

theorem bulletVanishW_xy (w : World) :
    (bulletVanishW w).bullet.x = w.bullet.x ∧
    (bulletVanishW w).bullet.y = w.bullet.y := ⟨rfl, rfl⟩

/-- The interpolation phases change only velocity-related bullet fields,
never the position. -/
theorem stepPhases_xy (aid : Nat) (w : World) :
    (stepPhases aid w).bullet.x = w.bullet.x ∧
    (stepPhases aid w).bullet.y = w.bullet.y := by
  unfold stepPhases
  dsimp only
  split_ifs <;> simp [setA]

theorem changeDirectionCall_xy (term : IExpr) (dval : Expr) (dty : DirType)
    (aid : Nat) (w : World) :
    (changeDirectionCall term dval dty aid w).bullet.x = w.bullet.x ∧
    (changeDirectionCall term dval dty aid w).bullet.y = w.bullet.y := by
  unfold changeDirectionCall
  dsimp only
  cases dty <;> dsimp only <;> (try split_ifs) <;> simp [setA]

theorem changeSpeedCall_xy (term : IExpr) (sval : Expr) (sty : SpdType)
    (aid : Nat) (w : World) :
    (changeSpeedCall term sval sty aid w).bullet.x = w.bullet.x ∧
    (changeSpeedCall term sval sty aid w).bullet.y = w.bullet.y := by
  unfold changeSpeedCall
  dsimp only
  cases sty <;> dsimp only <;> (try split_ifs) <;> simp [setA]

theorem accelCall_xy (term : IExpr) (hor ver : Option (Expr × SpdType))
    (aid : Nat) (w : World) :
    (accelCall term hor ver aid w).bullet.x = w.bullet.x ∧
    (accelCall term hor ver aid w).bullet.y = w.bullet.y := by
  unfold accelCall
  dsimp only
  rcases hor with _ | ⟨e1, ty1⟩ <;> rcases ver with _ | ⟨e2, ty2⟩
  · simp [setA]
  · cases ty2 <;> split_ifs <;> simp [setA]
  · cases ty1 <;> split_ifs <;> simp [setA]
  · cases ty1 <;> cases ty2 <;> split_ifs <;> simp [setA]

theorem allocDetached_bullet (al : ActLike) (p : List ℝ) (r : ℝ) (w : World) :
    (allocDetached al p r w).1.bullet = w.bullet := by
  cases al <;> rfl

theorem allocDetachedList_bullet :
    ∀ (als : List ActLike) (p : List ℝ) (r : ℝ) (w : World),
      (allocDetachedList als p r w).1.bullet = w.bullet
  | [], _, _, _ => rfl
  | al :: rest, p, r, w => by
    have h1 := allocDetached_bullet al p r w
    have h2 := allocDetachedList_bullet rest p r (allocDetached al p r w).1
    simp only [allocDetachedList]
    exact h2.trans h1

theorem execBulletSpec_bullet :
    ∀ (bs : BulletSpec) (p : List ℝ) (r : ℝ) (w : World),
      (execBulletSpec bs p r w).1.bullet = w.bullet
  | .bdef d s acts t ap, p, r, w => by
    simpa [execBulletSpec] using allocDetachedList_bullet acts p r w
  | .bref ps b, p, r, w => by
    simpa [execBulletSpec] using
      execBulletSpec_bullet b (ps.map fun e => e p r) r w

/-- `FireDef.__call__` never touches the owner bullet's own record:
it modifies only the firing action's state, the store, and `created`. -/
theorem fireDefCall_bullet (f : FireD) (p : List ℝ) (aid : Nat) (w : World) :
    (fireDefCall f p aid w).bullet = w.bullet := by
  unfold fireDefCall
  dsimp only
  simp [setA, execBulletSpec_bullet]

/-- No interpreter step ever moves the owner bullet: `x` and `y` are
written only by the final integration in `Bullet.step`. -/
theorem interp_xy (fuel : Nat) : ∀ (c : Call) (w : World),
    (interp fuel c w).1.bullet.x = w.bullet.x ∧
    (interp fuel c w).1.bullet.y = w.bullet.y := by
  induction fuel with
  | zero => intro c w; exact ⟨rfl, rfl⟩
  | succ fuel ih =>
    intro c w
    have comp : ∀ (c : Call) (w w' : World),
        w'.bullet.x = w.bullet.x → w'.bullet.y = w.bullet.y →
        (interp fuel c w').1.bullet.x = w.bullet.x ∧
        (interp fuel c w').1.bullet.y = w.bullet.y := by
      intro c w w' hx hy
      exact ⟨(ih c w').1.trans hx, (ih c w').2.trans hy⟩
    cases c with
    | astep aid =>
      rw [interp]
      try dsimp only
      split
      · exact stepPhases_xy aid w
      · split
        · exact stepPhases_xy aid w
        · exact ⟨(ih _ _).1.trans (stepPhases_xy aid w).1,
                 (ih _ _).2.trans (stepPhases_xy aid w).2⟩
    | loop aid =>
      rw [interp]
      try dsimp only
      split
      · exact ⟨rfl, rfl⟩
      · split
        · -- valid pc: execute the node, maybe continue looping
          split
          · exact ⟨(ih _ _).1.trans rfl, (ih _ _).2.trans rfl⟩
          · exact ⟨(ih _ _).1.trans ((ih _ _).1.trans rfl),
                   (ih _ _).2.trans ((ih _ _).2.trans rfl)⟩
        · -- IndexError branch
          split
          · split
            · exact ⟨rfl, rfl⟩
            · exact ⟨rfl, rfl⟩
          · split
            · exact ⟨rfl, rfl⟩
            · split
              · exact ⟨(ih _ _).1.trans rfl, (ih _ _).2.trans rfl⟩
              · exact ⟨(ih _ _).1.trans ((ih _ _).1.trans rfl),
                       (ih _ _).2.trans ((ih _ _).2.trans rfl)⟩
    | adef nodes params rpt aid =>
      rw [interp]
      try dsimp only
      exact ⟨(ih _ _).1.trans rfl, (ih _ _).2.trans rfl⟩
    | node n aid =>
      rw [interp.eq_def]
      try dsimp only
      cases n with
      | changeDirection term dval dty => exact changeDirectionCall_xy term dval dty aid w
      | changeSpeed term sval sty => exact changeSpeedCall_xy term sval sty aid w
      | accelN term hor ver => exact accelCall_xy term hor ver aid w
      | waitN frames => exact ⟨rfl, rfl⟩
      | tagN t => exact ⟨rfl, rfl⟩
      | untagN t => dsimp only; constructor <;> split_ifs <;> rfl
      | appearanceN s => exact ⟨rfl, rfl⟩
      | vanishN => exact bulletVanishW_xy w
      | repeatN times inner =>
        cases inner with
        | adef ns => exact comp _ w w rfl rfl
        | aref ps ns => exact comp _ w w rfl rfl
      | ifN cond thenNodes elseNodes =>
        dsimp only
        split
        · exact comp _ w w rfl rfl
        · cases elseNodes with
          | none => exact ⟨rfl, rfl⟩
          | some ns => exact comp _ w w rfl rfl
      | fireN f =>
        exact ⟨congrArg BulletS.x (fireDefCall_bullet f _ aid w),
               congrArg BulletS.y (fireDefCall_bullet f _ aid w)⟩
      | fireRefN ps f =>
        exact ⟨congrArg BulletS.x (fireDefCall_bullet f _ aid w),
               congrArg BulletS.y (fireDefCall_bullet f _ aid w)⟩
      | actionN ns => exact comp _ w w rfl rfl
      | actionRefN ps ns => exact comp _ w w rfl rfl

theorem foldl_astep_xy (fuel : Nat) : ∀ (l : List Nat) (p : World × Bool),
    (l.foldl (fun p aid =>
      let w' := actionStep fuel aid p.1
      (w', p.2 && (getA w' aid).finished)) p).1.bullet.x = p.1.bullet.x ∧
    (l.foldl (fun p aid =>
      let w' := actionStep fuel aid p.1
      (w', p.2 && (getA w' aid).finished)) p).1.bullet.y = p.1.bullet.y := by
  intro l
  induction l with
  | nil => intro p; exact ⟨rfl, rfl⟩
  | cons aid rest ihl =>
    intro p
    refine ⟨(ihl _).1.trans ?_, (ihl _).2.trans ?_⟩
    · exact (interp_xy fuel _ _).1
    · exact (interp_xy fuel _ _).2

theorem actionsPhase_xy (fuel : Nat) (w : World) :
    (actionsPhase fuel w).1.bullet.x = w.bullet.x ∧
    (actionsPhase fuel w).1.bullet.y = w.bullet.y := by
  unfold actionsPhase
  exact ⟨(foldl_astep_xy fuel _ _).1.trans rfl, (foldl_astep_xy fuel _ _).2.trans rfl⟩

/-! ### C2: position update and previous-position round trip -/

/-- C2: for every bullet and every call to `step()`, after the call
`(px, py)` equals the bullet's `(x, y)` from immediately before the
call, and the new position satisfies
`x' = x + mx + sin(direction)·speed`, `y' = y - my + cos(direction)·speed`,
where `direction`, `speed`, `mx`, `my` are the values in effect after
all of the bullet's running actions have stepped that frame
(`actionsPhase`). -/
theorem step_position_C2 (fuel : Nat) (w : World) :
    (bulletStep fuel w).bullet.px = w.bullet.x ∧
    (bulletStep fuel w).bullet.py = w.bullet.y ∧
    (bulletStep fuel w).bullet.x =
      w.bullet.x + (actionsPhase fuel w).1.bullet.mx +
        Real.sin (actionsPhase fuel w).1.bullet.direction *
          (actionsPhase fuel w).1.bullet.speed ∧
    (bulletStep fuel w).bullet.y =
      w.bullet.y + -(actionsPhase fuel w).1.bullet.my +
        Real.cos (actionsPhase fuel w).1.bullet.direction *
          (actionsPhase fuel w).1.bullet.speed := by
  have hx := (actionsPhase_xy fuel w).1
  have hy := (actionsPhase_xy fuel w).2
  unfold bulletStep
  dsimp only
  exact ⟨hx, hy, by rw [hx], by rw [hy]⟩

/-! ### C9: the Appearance opcode and the `apearance` typo -/

/-- C9 (code bug): `Appearance.__call__` assigns to `owner.apearance`
(parser.py line 318), not `owner.appearance`.  Executing the node with
name `"foo"` on a bullet whose appearance is `"bar"` leaves
`owner.appearance` at `"bar"` and creates the misspelled attribute
instead, contradicting the class docstring "Set a bullet appearance"
(and the spec's "sets bullet appearance label"). -/
theorem appearance_typo_C9 :
    (execNode 1 (.appearanceN "foo") 0 wApp).1.bullet.appearance = some "bar" ∧
    (execNode 1 (.appearanceN "foo") 0 wApp).1.bullet.apearance = some "foo" :=
  ⟨rfl, rfl⟩

/-! ### C10: the Untag opcode -/

/-- C10: executing an `Untag` node whose tag is not in the owner's tag
set raises no error and changes nothing at all (the `KeyError` is
swallowed); when the tag is present, exactly that tag is removed and
nothing else changes. -/
theorem untag_C10 (t : String) (aid : Nat) (w : World) :
    (t ∉ w.bullet.tags → (execNode 1 (.untagN t) aid w).1 = w) ∧
    (t ∈ w.bullet.tags →
      (execNode 1 (.untagN t) aid w).1 =
        { w with bullet := { w.bullet with tags := w.bullet.tags.erase t } }) := by
  constructor
  · intro h
    simp [execNode, interp, h]
  · intro h
    simp [execNode, interp, h]

/-- Witness for C10 at concrete inputs: on a bullet tagged `{"a"}`,
untagging `"b"` is a no-op and untagging `"a"` erases it. -/
theorem untag_C10_witness :
    ("b" ∉ wTag.bullet.tags ∧ (execNode 1 (.untagN "b") 0 wTag).1 = wTag) ∧
    ("a" ∈ wTag.bullet.tags ∧
      (execNode 1 (.untagN "a") 0 wTag).1 =
        { wTag with bullet := { wTag.bullet with
            tags := wTag.bullet.tags.erase "a" } }) := by
  have h1 : "b" ∉ wTag.bullet.tags := by decide
  have h2 : "a" ∈ wTag.bullet.tags := by decide
  exact ⟨⟨h1, (untag_C10 "b" 0 wTag).1 h1⟩, ⟨h2, (untag_C10 "a" 0 wTag).2 h2⟩⟩

/-! ### C5: vanished bullets never spawn again -/

/-- One step of a vanished bullet with an empty action list creates
nothing and preserves both facts. -/
theorem vanished_step (fuel : Nat) (w : World)
    (h1 : w.bullet.vanished = true) (h2 : w.bullet.actions = []) :
    (bulletStep fuel w).created = [] ∧
    (bulletStep fuel w).bullet.vanished = true ∧
    (bulletStep fuel w).bullet.actions = [] := by
  unfold bulletStep actionsPhase
  dsimp only
  rw [show ({ w with created := [] } : World).bullet.actions = [] from h2]
  simp [h1, h2]

theorem vanished_stepN (fuel : Nat) : ∀ (k : Nat) (w : World),
    w.bullet.vanished = true → w.bullet.actions = [] → 1 ≤ k →
    (stepN fuel k w).created = [] ∧
    (stepN fuel k w).bullet.vanished = true ∧
    (stepN fuel k w).bullet.actions = []
  | 0, _, _, _, hk => absurd hk (by simp)
  | 1, w, h1, h2, _ => by
    simpa [stepN] using vanished_step fuel w h1 h2
  | (j + 2), w, h1, h2, _ => by
    have hs := vanished_step fuel w h1 h2
    have := vanished_stepN fuel (j + 1) (bulletStep fuel w) hs.2.1 hs.2.2 (by simp)
    simpa [stepN] using this

/-- C5: once `vanish()` has been invoked on a bullet, every subsequent
call of `step()` returns an empty list of spawned bullets. -/
theorem vanish_no_spawn_C5 (w : World) (fuel k : Nat) (hk : 1 ≤ k) :
    (stepN fuel k (bulletVanishW w)).created = [] :=
  (vanished_stepN fuel k (bulletVanishW w) rfl rfl hk).1

/-- Witness for C5: a concrete bullet with one running action, vanished
by the host, spawns nothing on the next step. -/
theorem vanish_no_spawn_C5_witness :
    1 ≤ 1 ∧ (stepN 5 1 (bulletVanishW wCd)).created = [] :=
  ⟨le_refl 1, vanish_no_spawn_C5 wCd 5 1 (le_refl 1)⟩

/-! ### C3: fire defaults and previous-fire bookkeeping -/

theorem allocDetached_store_mono (al : ActLike) (p : List ℝ) (r : ℝ) (w : World) :
    w.store.length ≤ (allocDetached al p r w).1.store.length := by
  cases al <;> simp [allocDetached, alloc]

theorem allocDetachedList_store_mono :
    ∀ (als : List ActLike) (p : List ℝ) (r : ℝ) (w : World),
      w.store.length ≤ (allocDetachedList als p r w).1.store.length
  | [], _, _, _ => le_refl _
  | al :: rest, p, r, w => by
    simp only [allocDetachedList]
    exact (allocDetached_store_mono al p r w).trans
      (allocDetachedList_store_mono rest p r _)

theorem execBulletSpec_store_mono :
    ∀ (bs : BulletSpec) (p : List ℝ) (r : ℝ) (w : World),
      w.store.length ≤ (execBulletSpec bs p r w).1.store.length
  | .bdef d s acts t ap, p, r, w => by
    simpa [execBulletSpec] using allocDetachedList_store_mono acts p r w
  | .bref ps b, p, r, w => by
    simpa [execBulletSpec] using
      execBulletSpec_store_mono b (ps.map fun e => e p r) r w

theorem allocDetached_created (al : ActLike) (p : List ℝ) (r : ℝ) (w : World) :
    (allocDetached al p r w).1.created = w.created := by
  cases al <;> rfl

theorem allocDetachedList_created :
    ∀ (als : List ActLike) (p : List ℝ) (r : ℝ) (w : World),
      (allocDetachedList als p r w).1.created = w.created
  | [], _, _, _ => rfl
  | al :: rest, p, r, w => by
    simp only [allocDetachedList]
    exact (allocDetachedList_created rest p r _).trans
      (allocDetached_created al p r w)

theorem execBulletSpec_created :
    ∀ (bs : BulletSpec) (p : List ℝ) (r : ℝ) (w : World),
      (execBulletSpec bs p r w).1.created = w.created
  | .bdef d s acts t ap, p, r, w => by
    simpa [execBulletSpec] using allocDetachedList_created acts p r w
  | .bref ps b, p, r, w => by
    simpa [execBulletSpec] using
      execBulletSpec_created b (ps.map fun e => e p r) r w

theorem execBulletSpec_dir_none :
    ∀ (bs : BulletSpec) (p : List ℝ) (r : ℝ) (w : World),
      bs.dirOf = none → (execBulletSpec bs p r w).2.1 = none
  | .bdef d s acts t ap, p, r, w, h => by
    simp only [BulletSpec.dirOf] at h
    simp [execBulletSpec, h]
  | .bref ps b, p, r, w, h => by
    simp only [BulletSpec.dirOf] at h
    simpa [execBulletSpec] using
      execBulletSpec_dir_none b (ps.map fun e => e p r) r w h

theorem execBulletSpec_spd_none :
    ∀ (bs : BulletSpec) (p : List ℝ) (r : ℝ) (w : World),
      bs.spdOf = none → (execBulletSpec bs p r w).2.2.1 = none
  | .bdef d s acts t ap, p, r, w, h => by
    simp only [BulletSpec.spdOf] at h
    simp [execBulletSpec, h]
  | .bref ps b, p, r, w, h => by
    simp only [BulletSpec.spdOf] at h
    simpa [execBulletSpec] using
      execBulletSpec_spd_none b (ps.map fun e => e p r) r w h

/-- C3: when neither the fire definition nor the bullet definition
carries a direction, the spawned bullet's direction is `owner.aim`;
when neither carries a speed, the spawned speed is 1; and in every
case the running action's `previous_fire_direction` and
`previous_fire_speed` end up equal to the direction and speed actually
given to the spawned bullet. -/
theorem fire_defaults_C3 (f : FireD) (params : List ℝ) (aid : Nat) (w : World)
    (hvalid : aid < w.store.length) :
    (fireDefCall f params aid w).created =
        w.created ++ [firedBullet f params aid w] ∧
    (firedBullet f params aid w).direction =
        (getA (fireDefCall f params aid w) aid).previous_fire_direction ∧
    (firedBullet f params aid w).speed =
        (getA (fireDefCall f params aid w) aid).previous_fire_speed ∧
    (f.direction = none → f.bullet.dirOf = none →
        (firedBullet f params aid w).direction = aimOf w.bullet) ∧
    (f.speed = none → f.bullet.spdOf = none →
        (firedBullet f params aid w).speed = 1) := by
  have h1 : aid < (execBulletSpec f.bullet params w.bullet.rank w).1.store.length :=
    lt_of_lt_of_le hvalid (execBulletSpec_store_mono f.bullet params w.bullet.rank w)
  unfold firedBullet fireDefCall
  dsimp only
  simp only [setA_created, execBulletSpec_created, List.getLastD_concat]
  refine ⟨trivial, ?_, ?_, ?_, ?_⟩
  · simp only [getA, setA]
    simp only [store_getD_set_self, List.length_set, h1]
  · simp only [getA, setA]
    simp only [store_getD_set_self, List.length_set, h1]
  · intro hfd hbd
    rw [hfd, execBulletSpec_dir_none f.bullet params w.bullet.rank w hbd]
    dsimp only
    exact congrArg aimOf (execBulletSpec_bullet f.bullet params w.bullet.rank w)
  · intro hfs hbs
    rw [hfs, execBulletSpec_spd_none f.bullet params w.bullet.rank w hbs]

/-- Witness for C3: the plain `<fire><bullet/></fire>` on a concrete
world. -/
theorem fire_defaults_C3_witness :
    0 < wC7.store.length ∧
    ((fireDefCall simpleFire [] 0 wC7).created =
        wC7.created ++ [firedBullet simpleFire [] 0 wC7] ∧
     (firedBullet simpleFire [] 0 wC7).direction =
        (getA (fireDefCall simpleFire [] 0 wC7) 0).previous_fire_direction ∧
     (firedBullet simpleFire [] 0 wC7).speed =
        (getA (fireDefCall simpleFire [] 0 wC7) 0).previous_fire_speed ∧
     (simpleFire.direction = none → simpleFire.bullet.dirOf = none →
        (firedBullet simpleFire [] 0 wC7).direction = aimOf wC7.bullet) ∧
     (simpleFire.speed = none → simpleFire.bullet.spdOf = none →
        (firedBullet simpleFire [] 0 wC7).speed = 1)) :=
  ⟨by simp [wC7], fire_defaults_C3 simpleFire [] 0 wC7 (by simp [wC7])⟩

/-! ### C7: relative fire offsets -/

/-- C7 (amended): a `FireDef` whose relative offset evaluates to
`(r, 0)` places the new bullet at `owner + (r·cos d, r·sin d)` where
`d` is the final firing direction (the spawned bullet's `direction`).
The distance from the owner is exactly `r` — but the displacement is
`(cos d, sin d)`, not the travel vector `(sin d, cos d)` of the
position-update rule, so the bullet is *not* displaced along the
direction it will travel (see the counterexample). -/
theorem fire_offset_C7_amended (f : FireD) (off : OffsetT) (params : List ℝ)
    (aid : Nat) (w : World) (r : ℝ)
    (hoff : f.offset = some off) (hty : off.type = OffType.relative)
    (hval : offsetEval off params w.bullet.rank = (r, 0)) (hr : 0 < r) :
    (firedBullet f params aid w).x =
        w.bullet.x + Real.cos (firedBullet f params aid w).direction * r ∧
    (firedBullet f params aid w).y =
        w.bullet.y + Real.sin (firedBullet f params aid w).direction * r ∧
    Real.sqrt (((firedBullet f params aid w).x - w.bullet.x) ^ 2 +
               ((firedBullet f params aid w).y - w.bullet.y) ^ 2) = r := by
  have hb := execBulletSpec_bullet f.bullet params w.bullet.rank w
  unfold firedBullet fireDefCall
  dsimp only
  simp only [setA_created, List.getLastD_concat, hoff, hty, hval]
  simp only [setA_bullet, hb]
  refine ⟨by ring, by ring, ?_⟩
  have key : ∀ d : ℝ,
      (w.bullet.x + Real.cos d * r + Real.sin d * 0 - w.bullet.x) ^ 2 +
      (w.bullet.y + Real.sin d * r - Real.cos d * 0 - w.bullet.y) ^ 2 = r ^ 2 := by
    intro d
    have h := Real.sin_sq_add_cos_sq d
    ring_nf
    nlinarith [h]
  rw [key, Real.sqrt_sq hr.le]

/-- Witness for C7 (amended) at the concrete fire `fireOffC7`. -/
theorem fire_offset_C7_witness :
    (fireOffC7.offset = some ⟨OffType.relative, some (exprC 1), none⟩ ∧
     (⟨OffType.relative, some (exprC 1), none⟩ : OffsetT).type = OffType.relative ∧
     offsetEval ⟨OffType.relative, some (exprC 1), none⟩ [] wC7.bullet.rank = (1, 0) ∧
     (0 : ℝ) < 1) ∧
    ((firedBullet fireOffC7 [] 0 wC7).x =
        wC7.bullet.x + Real.cos (firedBullet fireOffC7 [] 0 wC7).direction * 1 ∧
     (firedBullet fireOffC7 [] 0 wC7).y =
        wC7.bullet.y + Real.sin (firedBullet fireOffC7 [] 0 wC7).direction * 1 ∧
     Real.sqrt (((firedBullet fireOffC7 [] 0 wC7).x - wC7.bullet.x) ^ 2 +
                ((firedBullet fireOffC7 [] 0 wC7).y - wC7.bullet.y) ^ 2) = 1) :=
  ⟨⟨rfl, rfl, rfl, one_pos⟩,
   fire_offset_C7_amended fireOffC7 ⟨OffType.relative, some (exprC 1), none⟩ [] 0 wC7 1
     rfl rfl rfl one_pos⟩

/-- C7 (counterexample to the claim as stated): with final firing
direction 0 and relative offset `(1, 0)`, the bullet spawns at
`(1, 0)` relative to the owner, whereas a displacement "along the
direction the new bullet will travel" would be
`(sin 0, cos 0)·1 = (0, 1)` under the position-update rule.  The claim's
direction clause is false at this input (the distance clause holds). -/
theorem fire_offset_C7_counterexample :
    (firedBullet fireOffC7 [] 0 wC7).direction = 0 ∧
    (firedBullet fireOffC7 [] 0 wC7).x = 1 ∧
    (firedBullet fireOffC7 [] 0 wC7).y = 0 ∧
    ¬((firedBullet fireOffC7 [] 0 wC7).x =
        wC7.bullet.x + Real.sin (firedBullet fireOffC7 [] 0 wC7).direction * 1 ∧
      (firedBullet fireOffC7 [] 0 wC7).y =
        wC7.bullet.y + Real.cos (firedBullet fireOffC7 [] 0 wC7).direction * 1) := by
  have hd : (firedBullet fireOffC7 [] 0 wC7).direction = 0 := by
    simp [firedBullet, fireDefCall, execBulletSpec, allocDetachedList,
      fireOffC7, wC7, exprC, radiansR, FireD.direction, FireD.bullet,
      FireD.speed, FireD.offset, FireD.tags, FireD.appearance, setA, getA]
  have hx : (firedBullet fireOffC7 [] 0 wC7).x = 1 := by
    simp [firedBullet, fireDefCall, execBulletSpec, allocDetachedList,
      fireOffC7, wC7, exprC, radiansR, offsetEval, FireD.direction, FireD.bullet,
      FireD.speed, FireD.offset, FireD.tags, FireD.appearance, setA, getA]
  have hy : (firedBullet fireOffC7 [] 0 wC7).y = 0 := by
    simp [firedBullet, fireDefCall, execBulletSpec, allocDetachedList,
      fireOffC7, wC7, exprC, radiansR, offsetEval, FireD.direction, FireD.bullet,
      FireD.speed, FireD.offset, FireD.tags, FireD.appearance, setA, getA]
  refine ⟨hd, hx, hy, ?_⟩
  rintro ⟨-, h2⟩
  rw [hy, hd] at h2
  simp [wC7] at h2

/-! ### C1: ChangeDirection interpolation -/

/-- One interpolation pass on an action whose direction interpolation
is armed (`direction_frames > 0`) and not aiming: the owner's direction
grows by the stored per-frame delta, the frame counter decrements, and
the rest of the direction state is untouched (whatever the speed and
acceleration phases do). -/
theorem stepPhases_dirOnly (aid : Nat) (w : World)
    (hvalid : aid < w.store.length)
    (haim : (getA w aid).aiming = false)
    (hpos : 0 < (getA w aid).direction_frames) :
    (stepPhases aid w).bullet.direction =
        w.bullet.direction + (getA w aid).direction ∧
    (getA (stepPhases aid w) aid).direction = (getA w aid).direction ∧
    (getA (stepPhases aid w) aid).direction_frames =
        (getA w aid).direction_frames - 1 ∧
    (getA (stepPhases aid w) aid).aiming = false ∧
    (getA (stepPhases aid w) aid).pc = (getA w aid).pc ∧
    (stepPhases aid w).store.length = w.store.length := by
  unfold stepPhases
  dsimp only
  generalize hA : getA w aid = A at haim hpos ⊢
  by_cases h1 : 0 < A.speed_frames <;> by_cases h3 : 0 < A.accel_frames <;>
    simp [h1, h3, haim, hpos, getA, setA, store_getD_set_self, hvalid]

/-- Iterating `Action.step` on a dead-`pc` action with an armed,
non-aiming direction interpolation adds `k` per-frame deltas. -/
theorem iter_dir (aid fuel2 : Nat) : ∀ (k : Nat) (w : World) (s : ℝ) (m : Int),
    aid < w.store.length → (getA w aid).pc = none →
    (getA w aid).aiming = false → (getA w aid).direction = s →
    (getA w aid).direction_frames = m → (k : Int) ≤ m →
    ((actionStep (fuel2 + 1) aid)^[k] w).bullet.direction =
      w.bullet.direction + k * s := by
  intro k
  induction k with
  | zero => intro w s m _ _ _ _ _ _; simp
  | succ k ihk =>
    intro w s m hvalid hpc haim hdir hfr hle
    have hm : (0 : Int) < m := by
      have h : ((k : Int) + 1) ≤ m := by push_cast at hle ⊢; omega
      omega
    have hpos : 0 < (getA w aid).direction_frames := by rw [hfr]; exact hm
    obtain ⟨hb, hd, hf, ha, hp, hl⟩ := stepPhases_dirOnly aid w hvalid haim hpos
    have hstep : actionStep (fuel2 + 1) aid w = stepPhases aid w := by
      unfold actionStep
      rw [interp]
      try dsimp only
      rw [hp, hpc]
    rw [Function.iterate_succ_apply, hstep]
    rw [ihk (stepPhases aid w) s (m - 1) (by rw [hl]; exact hvalid)
      (hp.trans hpc) ha (hd.trans hdir) (by rw [hf, hfr]) (by omega)]
    rw [hb, hdir]
    push_cast
    ring

/-- Subtracting the `[-π, π)` normalization from its input gives an
integer multiple of 2π. -/
theorem pymod_norm_diff (x : ℝ) :
    (pymod (x + Real.pi) (2 * Real.pi) - Real.pi) - x =
      2 * Real.pi * (-⌊(x + Real.pi) / (2 * Real.pi)⌋) := by
  simp only [pymod]
  ring

/-- C1 (amended): for a `ChangeDirection` with `frames = n > 0` of type
`absolute` or `relative`, executing the node and then stepping the
running action `n` further frames (with no other direction-changer
interleaved: the action's `pc` is dead, so only interpolation runs)
leaves `owner.direction` congruent modulo 2π to the intended target
direction (absolute: the given value; relative: the starting direction
plus the value).  The `aim` type, which the claim as stated also
covers, does not satisfy this — see
`change_direction_C1_counterexample`. -/
theorem change_direction_C1_amended (w : World) (aid : Nat) (term : IExpr)
    (dval : Expr) (dty : DirType) (fuel fuel2 : Nat)
    (hty : dty = DirType.absolute ∨ dty = DirType.relative)
    (hvalid : aid < w.store.length)
    (hpc : (getA w aid).pc = none)
    (n : Int) (hn : 0 < n)
    (hterm : term (getA w aid).params w.bullet.rank = n) :
    ∃ k : Int,
      ((actionStep (fuel2 + 1) aid)^[n.toNat]
          (execNode (fuel + 1) (.changeDirection term dval dty) aid w).1).bullet.direction -
        ((if dty = DirType.absolute then (0 : ℝ) else w.bullet.direction) +
          radiansR (dval (getA w aid).params w.bullet.rank)) =
      2 * Real.pi * k := by
  have hnle : ¬ (n ≤ 0) := by omega
  have hcast : ((n.toNat : ℕ) : ℝ) = (n : ℝ) := by
    exact_mod_cast congrArg (Int.cast : Int → ℝ) (Int.toNat_of_nonneg hn.le)
  have hnz : ((n : ℝ)) ≠ 0 := by
    exact_mod_cast hn.ne'
  -- both amended cases follow the same pattern, with different `dir0`
  have main : ∀ dir0 : ℝ,
      (execNode (fuel + 1) (.changeDirection term dval dty) aid w).1 =
        setA w aid { getA w aid with
          direction_frames := n
          aiming := false
          direction := (pymod (dir0 + Real.pi) (2 * Real.pi) - Real.pi) / (n : ℝ) } →
      ((actionStep (fuel2 + 1) aid)^[n.toNat]
          (execNode (fuel + 1) (.changeDirection term dval dty) aid w).1).bullet.direction =
        w.bullet.direction + (pymod (dir0 + Real.pi) (2 * Real.pi) - Real.pi) := by
    intro dir0 hexec
    rw [hexec]
    rw [iter_dir aid fuel2 n.toNat (setA w aid _)
      ((pymod (dir0 + Real.pi) (2 * Real.pi) - Real.pi) / (n : ℝ)) n
      (by rw [setA_store_length]; exact hvalid)
      (by rw [getA_setA_self _ _ _ hvalid]; exact hpc)
      (by rw [getA_setA_self _ _ _ hvalid])
      (by rw [getA_setA_self _ _ _ hvalid])
      (by rw [getA_setA_self _ _ _ hvalid])
      (by rw [Int.toNat_of_nonneg hn.le])]
    rw [setA_bullet, hcast]
    field_simp
  obtain h | h := hty <;> subst h
  · have hexec : (execNode (fuel + 1) (.changeDirection term dval DirType.absolute) aid w).1 =
        setA w aid { getA w aid with
          direction_frames := n
          aiming := false
          direction := (pymod ((radiansR (dval (getA w aid).params w.bullet.rank) -
            w.bullet.direction) + Real.pi) (2 * Real.pi) - Real.pi) / (n : ℝ) } := by
      unfold execNode
      rw [interp]
      dsimp only
      unfold changeDirectionCall
      dsimp only
      rw [hterm]
      simp [hnle]
    refine ⟨-⌊((radiansR (dval (getA w aid).params w.bullet.rank)
        - w.bullet.direction) + Real.pi) / (2 * Real.pi)⌋, ?_⟩
    rw [main _ hexec]
    have hnd := pymod_norm_diff
      (radiansR (dval (getA w aid).params w.bullet.rank) - w.bullet.direction)
    push_cast
    norm_num
    linarith [hnd]
  · have hexec : (execNode (fuel + 1) (.changeDirection term dval DirType.relative) aid w).1 =
        setA w aid { getA w aid with
          direction_frames := n
          aiming := false
          direction := (pymod ((radiansR (dval (getA w aid).params w.bullet.rank)) +
            Real.pi) (2 * Real.pi) - Real.pi) / (n : ℝ) } := by
      unfold execNode
      rw [interp]
      dsimp only
      unfold changeDirectionCall
      dsimp only
      rw [hterm]
      simp [hnle]
    refine ⟨-⌊((radiansR (dval (getA w aid).params w.bullet.rank)) + Real.pi)
        / (2 * Real.pi)⌋, ?_⟩
    rw [main _ hexec]
    have hnd := pymod_norm_diff (radiansR (dval (getA w aid).params w.bullet.rank))
    push_cast
    norm_num
    linarith [hnd]

/-- Witness for C1 (amended): term 1, value 0, type `absolute`, on a
default bullet with one dead-`pc` action. -/
theorem change_direction_C1_witness :
    (0 < wCd.store.length ∧ (getA wCd 0).pc = none ∧ (0 : Int) < 1 ∧
      iexprC 1 (getA wCd 0).params wCd.bullet.rank = 1) ∧
    ∃ k : Int,
      ((actionStep (0 + 1) 0)^[(1 : Int).toNat]
          (execNode (0 + 1) (.changeDirection (iexprC 1) (exprC 0)
            DirType.absolute) 0 wCd).1).bullet.direction -
        ((if DirType.absolute = DirType.absolute then (0 : ℝ)
          else wCd.bullet.direction) +
          radiansR (exprC 0 (getA wCd 0).params wCd.bullet.rank)) =
      2 * Real.pi * k :=
  ⟨⟨by simp [wCd], rfl, by norm_num, rfl⟩,
   change_direction_C1_amended wCd 0 (iexprC 1) (exprC 0) DirType.absolute 0 0
     (Or.inl rfl) (by simp [wCd]) rfl 1 (by norm_num) rfl⟩

/-- C1 (counterexample for the `aim` type): `changeDirection` with type
`aim`, value 90 degrees and term 2, on a default bullet (no target, so
`aim = 0`, starting direction 0).  The claim's target direction is
value + owner.aim = π/2 at arming time, but after the 2 frames the
owner's direction is π/4: on the final frame the `aiming` latch adds
`owner.aim` (impl.py line 80) instead of the remaining interpolation
delta, so the result is not congruent to the target modulo 2π. -/
theorem change_direction_C1_counterexample :
    ¬ ∃ k : Int,
      ((actionStep 1 0)^[2] (execNode 1 cdAim 0 wCd).1).bullet.direction -
        (radiansR (exprC 90 (getA wCd 0).params wCd.bullet.rank) +
          aimOf wCd.bullet) =
      2 * Real.pi * k := by
  have hpi := Real.pi_ne_zero
  have h2 : ((actionStep 1 0 : World → World)^[2]) =
      fun w0 => actionStep 1 0 (actionStep 1 0 w0) := by
    funext w0
    rw [show (2 : ℕ) = 0 + 1 + 1 by rfl, Function.iterate_succ_apply,
      Function.iterate_succ_apply, Function.iterate_zero_apply]
  have hfinal : ((actionStep 1 0)^[2] (execNode 1 cdAim 0 wCd).1).bullet.direction =
      (pymod (radiansR 90 + Real.pi) (2 * Real.pi) - Real.pi) / 2 := by
    rw [h2]
    norm_num [actionStep, execNode, interp, changeDirectionCall, stepPhases,
      cdAim, wCd, iexprC, exprC, getA, setA, aimOf]
  have hfloor : ⌊(radiansR 90 + Real.pi) / (2 * Real.pi)⌋ = 0 := by
    have h1 : (radiansR 90 + Real.pi) / (2 * Real.pi) = 3 / 4 := by
      rw [radiansR]
      field_simp
      ring
    rw [h1, Int.floor_eq_zero_iff]
    constructor <;> norm_num
  have hD : pymod (radiansR 90 + Real.pi) (2 * Real.pi) - Real.pi = Real.pi / 2 := by
    rw [pymod, hfloor, radiansR]
    push_cast
    ring
  have haim : aimOf wCd.bullet = 0 := rfl
  have hrad : radiansR (exprC 90 (getA wCd 0).params wCd.bullet.rank) =
      radiansR 90 := rfl
  rintro ⟨k, hk⟩
  rw [hfinal, hD, haim, hrad, radiansR] at hk
  have hzero : Real.pi * (8 * (k : ℝ) + 1) = 0 := by
    linear_combination (-4 : ℝ) * hk
  have h8 : (8 * (k : ℝ) + 1) = 0 := by
    rcases mul_eq_zero.mp hzero with h | h
    · exact absurd h hpi
    · exact h
  have hint : (8 * k + 1 : ℤ) = 0 := by exact_mod_cast h8
  omega

/-! ### C4: a repeat around a single fire spawns exactly `times` bullets

The interpreter run is unrolled one call at a time.  Because every
control decision in the scenario is concrete (program counters, node
lists, wait counters), each unrolling step is definitional; only the
`repeat ≤ 0` test of the child depends on the symbolic repeat count and
is kept as an `if`. -/

theorem c4_astep0 (f : Nat) (n : Int) :
    interp (f + 1) (Call.astep 0) (c4World n) = interp f (Call.loop 0) (c4World n) := rfl

theorem c4_loop0 (f : Nat) (n : Int) :
    interp (f + 1) (Call.loop 0) (c4World n) =
      (if (interp f (Call.node (Node.repeatN (iexprC n)
            (ActLike.adef [Node.fireN simpleFire])) 0) (c4WorldP n)).2 = true
       then ((interp f (Call.node (Node.repeatN (iexprC n)
            (ActLike.adef [Node.fireN simpleFire])) 0) (c4WorldP n)).1, false)
       else interp f (Call.loop 0)
         (interp f (Call.node (Node.repeatN (iexprC n)
            (ActLike.adef [Node.fireN simpleFire])) 0) (c4WorldP n)).1) := rfl

theorem c4_repeat (f : Nat) (n : Int) :
    interp (f + 1) (Call.node (Node.repeatN (iexprC n)
        (ActLike.adef [Node.fireN simpleFire])) 0) (c4WorldP n) =
      interp f (Call.adef [Node.fireN simpleFire] [] n 0) (c4WorldP n) := rfl

theorem c4_adef (f : Nat) (n m : Int) :
    interp (f + 1) (Call.adef [Node.fireN simpleFire] [] m 0) (c4WorldP n) =
      ((interp f (Call.astep 1) (c4W n (c4CInit m) [])).1, true) := rfl

theorem c4_astep1 (f : Nat) (n m : Int) (c : List BulletS) :
    interp (f + 1) (Call.astep 1) (c4W n (c4CInit m) c) =
      interp f (Call.loop 1) (c4W n (c4CInit m) c) := rfl

/-- First pass of the child loop: the program counter moves from -1 to
0 and the fire executes (appending one bullet and recording
`previous_fire_speed = 1`); the fire does not suspend, so the loop
continues. -/
theorem c4_loop_first (g : Nat) (n m : Int) (c : List BulletS) :
    interp (g + 1 + 1) (Call.loop 1) (c4W n (c4CInit m) c) =
      interp (g + 1) (Call.loop 1) (c4W n (c4Ca m (some 0)) (c ++ [c4Spawn])) := rfl

/-- Later passes: the program counter runs off the end; either the
repeat count is exhausted (the child finishes and hands control back to
the parent) or it decrements and the fire runs again. -/
theorem c4_loop_step (g : Nat) (n m : Int) (c : List BulletS) :
    interp (g + 1 + 1) (Call.loop 1) (c4W n (c4Ca m (some 0)) c) =
      (if m - 1 ≤ 0 then
        ({ bullet := { actions := [0] }, store := [c4P1fin n, c4CfinM (m - 1)],
           created := c }, false)
       else interp (g + 1) (Call.loop 1)
         (c4W n (c4Ca (m - 1) (some 0)) (c ++ [c4Spawn]))) := rfl

theorem c4_loop_done (g : Nat) (n : Int) (c : List BulletS) :
    interp (g + 1) (Call.loop 1) (c4W n (c4Ca 1 (some 0)) c) = (c4WmidFin n c, false) := rfl

/-- The child loop with `k + 1` repeats left after the first fire emits
`k` further bullets and ends in the finished mid-frame state. -/
theorem c4_child_loop (n : Int) : ∀ (k g : Nat) (c : List BulletS), k ≤ g →
    interp (g + 1) (Call.loop 1) (c4W n (c4Ca ((k : Int) + 1) (some 0)) c) =
      (c4WmidFin n (c ++ List.replicate k c4Spawn), false) := by
  intro k
  induction k with
  | zero =>
    intro g c _
    simpa using c4_loop_done g n c
  | succ k ih =>
    intro g c hg
    obtain ⟨g2, rfl⟩ : ∃ g2, g = g2 + 1 := ⟨g - 1, by omega⟩
    push_cast
    rw [c4_loop_step g2 n ((k : Int) + 1 + 1) c,
      if_neg (by omega : ¬ ((k : Int) + 1 + 1 - 1 ≤ 0)),
      show ((k : Int) + 1 + 1 - 1) = (k : Int) + 1 by ring,
      ih g2 (c ++ [c4Spawn]) (by omega)]
    simp [List.replicate_succ]

/-- The whole child run (from creation): `k + 1` fires. -/
theorem c4_child_run (n : Int) (k g : Nat) (c : List BulletS) (hg : k ≤ g) :
    interp (g + 1 + 1) (Call.loop 1) (c4W n (c4CInit ((k : Int) + 1)) c) =
      (c4WmidFin n (c ++ List.replicate (k + 1) c4Spawn), false) := by
  rw [c4_loop_first g n ((k : Int) + 1) c, c4_child_loop n k g (c ++ [c4Spawn]) hg]
  simp [List.replicate_succ]

/-- The complete `Action.step` of the owner on its first frame: the
repeat is entered, the child is created and stepped, and all `n` fires
happen before control returns. -/
theorem c4_run (n : Nat) (hn : 1 ≤ n) (fuel : Nat) (hf : n + 6 ≤ fuel) :
    interp fuel (Call.astep 0) (c4World (n : Int)) =
      (c4WmidFin (n : Int) (List.replicate n c4Spawn), false) := by
  obtain ⟨k, rfl⟩ : ∃ k, n = k + 1 := ⟨n - 1, by omega⟩
  obtain ⟨g, rfl⟩ : ∃ g, fuel = g + 7 := ⟨fuel - 7, by omega⟩
  have hk : k ≤ g := by omega
  have hr : interp (g + 5) (Call.node (Node.repeatN (iexprC ((k : Int) + 1))
      (ActLike.adef [Node.fireN simpleFire])) 0) (c4WorldP ((k : Int) + 1)) =
      (c4WmidFin ((k : Int) + 1) (List.replicate (k + 1) c4Spawn), true) := by
    rw [c4_repeat (g + 4) ((k : Int) + 1),
      c4_adef (g + 3) ((k : Int) + 1) ((k : Int) + 1),
      c4_astep1 (g + 2) ((k : Int) + 1) ((k : Int) + 1) [],
      c4_child_run ((k : Int) + 1) k g [] hk]
    simp
  push_cast
  rw [c4_astep0 (g + 6) ((k : Int) + 1), c4_loop0 (g + 5) ((k : Int) + 1), hr]
  simp

/-- Frame 1 of `Bullet.step`: `n` bullets are returned. -/
theorem c4_frame1 (n : Nat) (hn : 1 ≤ n) (fuel : Nat) (hf : n + 6 ≤ fuel) :
    bulletStep fuel (c4World (n : Int)) =
      c4WmidFin (n : Int) (List.replicate n c4Spawn) := by
  have h : interp fuel (Call.astep 0)
      { bullet := { actions := [0] }, store := [c4Parent (n : Int)],
        created := ([] : List BulletS) } =
      (c4WmidFin (n : Int) (List.replicate n c4Spawn), false) := c4_run n hn fuel hf
  simp only [bulletStep, actionsPhase, actionStep, c4World, List.foldl]
  rw [h]
  simp [c4WmidFin]

/-- Frame 2: the parent's own frame ends; no bullet is created. -/
theorem c4_frame2 (n : Int) (f : Nat) (CR : List BulletS) :
    bulletStep (f + 2) (c4WmidFin n CR) = c4Post2 n := by
  have h : interp (f + 2) (Call.astep 0)
      { bullet := { actions := [0] }, store := [c4P1fin n, c4Cfin],
        created := ([] : List BulletS) } =
      (c4Post2 n, false) := rfl
  simp only [bulletStep, actionsPhase, actionStep, c4WmidFin, List.foldl]
  rw [h]
  simp [c4Post2]

/-- From frame 3 on the state is a fixpoint of `Bullet.step` (for every
fuel, including 0: a dead action is a no-op either way). -/
theorem c4_fix (n : Int) (fuel : Nat) : bulletStep fuel (c4Post2 n) = c4Post2 n := by
  have h : (interp fuel (Call.astep 0)
      { bullet := { actions := [0] }, store := [c4P1done n, c4Cfin],
        created := ([] : List BulletS) }).1 =
      { bullet := { actions := [0] }, store := [c4P1done n, c4Cfin],
        created := ([] : List BulletS) } := by
    cases fuel with
    | zero => rfl
    | succ f => rfl
  simp only [bulletStep, actionsPhase, actionStep, c4Post2, List.foldl]
  rw [h]
  simp [c4Post2]

theorem c4_stepN_fix (n : Int) (fuel : Nat) :
    ∀ j, stepN fuel j (c4Post2 n) = c4Post2 n := by
  intro j
  induction j with
  | zero => rfl
  | succ j ih =>
    have h : stepN fuel (j + 1) (c4Post2 n) =
        stepN fuel j (bulletStep fuel (c4Post2 n)) := rfl
    rw [h, c4_fix, ih]

/-- C4: a `repeat` node with `times = n ≥ 1` whose body is a single
`fire` spawns exactly `n` bullets in total: `FireDef.__call__` returns
`None`, so the opcode loop does not suspend between fires and all `n`
bullets are created on the owner's first `step`; every later `step`
creates none. -/
theorem repeat_fire_C4 (n fuel : Nat) (hn : 1 ≤ n) (hf : n + 6 ≤ fuel) :
    (bulletStep fuel (c4World (n : Int))).created.length = n ∧
    ∀ k : Nat, 1 ≤ k →
      (stepN fuel k (bulletStep fuel (c4World (n : Int)))).created = [] := by
  have h1 := c4_frame1 n hn fuel hf
  refine ⟨by rw [h1]; simp [c4WmidFin], ?_⟩
  intro k hk
  obtain ⟨j, rfl⟩ : ∃ j, k = j + 1 := ⟨k - 1, by omega⟩
  obtain ⟨f, rfl⟩ : ∃ f, fuel = f + 2 := ⟨fuel - 2, by omega⟩
  rw [h1]
  have h2 : stepN (f + 2) (j + 1) (c4WmidFin (n : Int) (List.replicate n c4Spawn)) =
      stepN (f + 2) j (bulletStep (f + 2) (c4WmidFin (n : Int) (List.replicate n c4Spawn))) := rfl
  rw [h2, c4_frame2, c4_stepN_fix]
  rfl

theorem repeat_fire_C4_witness :
    (1 ≤ 1 ∧ 1 + 6 ≤ 7) ∧
    ((bulletStep 7 (c4World ((1 : Nat) : Int))).created.length = 1 ∧
     ∀ k : Nat, 1 ≤ k →
       (stepN 7 k (bulletStep 7 (c4World ((1 : Nat) : Int)))).created = []) :=
  ⟨⟨le_refl 1, by norm_num⟩, repeat_fire_C4 1 7 (le_refl 1) (by norm_num)⟩

/-! ### C6: the top-action list of a loaded document -/


mutual

theorem regsRoot_keys (cs : List Xml) :
    ∀ p ∈ regsRoot cs, ∀ s, p.1 = some s → s ∈ xlabelsL cs := by
  match cs with
  | [] => intro p hp; rw [regsRoot] at hp; simp at hp
  | .el t l ch :: rest =>
    intro p hp s hs
    rw [regsRoot] at hp
    rcases List.mem_append.mp hp with h | h
    · split_ifs at h with h1 h2 h3
      · rcases List.mem_append.mp h with h5 | h5
        · have := regsActCh_keys ch p h5 s hs
          simp only [xlabelsL, xlabels, List.mem_append]; tauto
        · simp at h5; subst h5; simp at hs; subst hs; simp [xlabelsL, xlabels]
      · have := regsBulCh_keys ch p h s hs
        simp only [xlabelsL, xlabels, List.mem_append]; tauto
      · have := regsFireCh_keys ch p h s hs
        simp only [xlabelsL, xlabels, List.mem_append]; tauto
      · simp at h
    · have := regsRoot_keys rest p h s hs
      simp only [xlabelsL, List.mem_append]; tauto

theorem regsActCh_keys (cs : List Xml) :
    ∀ p ∈ regsActCh cs, ∀ s, p.1 = some s → s ∈ xlabelsL cs := by
  match cs with
  | [] => intro p hp; rw [regsActCh] at hp; simp at hp
  | .el t l ch :: rest =>
    intro p hp s hs
    rw [regsActCh] at hp
    rcases List.mem_append.mp hp with h | h
    · split_ifs at h with h1 h2 h3 h4
      · have := regsRptCh_keys ch p h s hs
        simp only [xlabelsL, xlabels, List.mem_append]; tauto
      · have := regsFireCh_keys ch p h s hs
        simp only [xlabelsL, xlabels, List.mem_append]; tauto
      · have := regsIfCh_keys ch p h s hs
        simp only [xlabelsL, xlabels, List.mem_append]; tauto
      · rcases List.mem_append.mp h with h5 | h5
        · have := regsActCh_keys ch p h5 s hs
          simp only [xlabelsL, xlabels, List.mem_append]; tauto
        · simp at h5; subst h5; simp at hs; subst hs; simp [xlabelsL, xlabels]
      · simp at h
    · have := regsActCh_keys rest p h s hs
      simp only [xlabelsL, List.mem_append]; tauto

theorem regsRptCh_keys (cs : List Xml) :
    ∀ p ∈ regsRptCh cs, ∀ s, p.1 = some s → s ∈ xlabelsL cs := by
  match cs with
  | [] => intro p hp; rw [regsRptCh] at hp; simp at hp
  | .el t l ch :: rest =>
    intro p hp s hs
    rw [regsRptCh] at hp
    rcases List.mem_append.mp hp with h | h
    · split_ifs at h with h1
      · rcases List.mem_append.mp h with h5 | h5
        · have := regsActCh_keys ch p h5 s hs
          simp only [xlabelsL, xlabels, List.mem_append]; tauto
        · simp at h5; subst h5; simp at hs; subst hs; simp [xlabelsL, xlabels]
      · simp at h
    · have := regsRptCh_keys rest p h s hs
      simp only [xlabelsL, List.mem_append]; tauto

theorem regsIfCh_keys (cs : List Xml) :
    ∀ p ∈ regsIfCh cs, ∀ s, p.1 = some s → s ∈ xlabelsL cs := by
  match cs with
  | [] => intro p hp; rw [regsIfCh] at hp; simp at hp
  | .el t l ch :: rest =>
    intro p hp s hs
    rw [regsIfCh] at hp
    rcases List.mem_append.mp hp with h | h
    · split_ifs at h with h1 h2
      · rcases List.mem_append.mp h with h5 | h5
        · have := regsActCh_keys ch p h5 s hs
          simp only [xlabelsL, xlabels, List.mem_append]; tauto
        · simp at h5; subst h5; simp at hs; subst hs; simp [xlabelsL, xlabels]
      · rcases List.mem_append.mp h with h5 | h5
        · have := regsActCh_keys ch p h5 s hs
          simp only [xlabelsL, xlabels, List.mem_append]; tauto
        · simp at h5; subst h5; simp at hs; subst hs; simp [xlabelsL, xlabels]
      · simp at h
    · have := regsIfCh_keys rest p h s hs
      simp only [xlabelsL, List.mem_append]; tauto

theorem regsFireCh_keys (cs : List Xml) :
    ∀ p ∈ regsFireCh cs, ∀ s, p.1 = some s → s ∈ xlabelsL cs := by
  match cs with
  | [] => intro p hp; rw [regsFireCh] at hp; simp at hp
  | .el t l ch :: rest =>
    intro p hp s hs
    rw [regsFireCh] at hp
    rcases List.mem_append.mp hp with h | h
    · split_ifs at h with h1
      · have := regsBulCh_keys ch p h s hs
        simp only [xlabelsL, xlabels, List.mem_append]; tauto
      · simp at h
    · have := regsFireCh_keys rest p h s hs
      simp only [xlabelsL, List.mem_append]; tauto

theorem regsBulCh_keys (cs : List Xml) :
    ∀ p ∈ regsBulCh cs, ∀ s, p.1 = some s → s ∈ xlabelsL cs := by
  match cs with
  | [] => intro p hp; rw [regsBulCh] at hp; simp at hp
  | .el t l ch :: rest =>
    intro p hp s hs
    rw [regsBulCh] at hp
    rcases List.mem_append.mp hp with h | h
    · split_ifs at h with h1
      · rcases List.mem_append.mp h with h5 | h5
        · have := regsActCh_keys ch p h5 s hs
          simp only [xlabelsL, xlabels, List.mem_append]; tauto
        · simp at h5; subst h5; simp at hs; subst hs; simp [xlabelsL, xlabels]
      · simp at h
    · have := regsBulCh_keys rest p h s hs
      simp only [xlabelsL, List.mem_append]; tauto

end



theorem filterMap_fst_map_upd (v : Xml) :
    ∀ acc : List (Option String × Xml),
      ((acc.map (fun p => if p.1 = none then (none, v) else p)).filterMap
        (fun p => p.1)) = acc.filterMap (fun p => p.1) := by
  intro acc
  induction acc with
  | nil => rfl
  | cons q rest ih =>
    by_cases hq : q.1 = none
    · simp [hq, List.filterMap_cons, ih]
    · simp [hq, List.filterMap_cons, ih]

theorem filter_top_map_upd (v : Xml) :
    ∀ acc : List (Option String × Xml),
      (acc.map (fun p => if p.1 = none then (none, v) else p)).filter
        (fun p => topKey p.1) = acc.filter (fun p => topKey p.1) := by
  intro acc
  induction acc with
  | nil => rfl
  | cons q rest ih =>
    by_cases hq : q.1 = none
    · simp only [List.map_cons, List.filter_cons]
      rw [show (if q.1 = none then ((none : Option String), v) else q) = (none, v) from
        by rw [if_pos hq], hq]
      simp only [show topKey none = false from rfl, Bool.false_eq_true, if_false, ih]
    · simp only [List.map_cons, List.filter_cons]
      rw [show (if q.1 = none then ((none : Option String), v) else q) = q from
        by rw [if_neg hq]]
      simp only [ih]

theorem pydict_fold_filter :
    ∀ (l acc : List (Option String × Xml)),
      ((acc ++ l).filterMap (fun p => p.1)).Nodup →
      (l.foldl (fun d p => pydictInsert p.1 p.2 d) acc).filter (fun p => topKey p.1) =
        (acc ++ l).filter (fun p => topKey p.1) := by
  intro l
  induction l with
  | nil => intro acc _; simp
  | cons q rest ih =>
    intro acc hnd
    obtain ⟨k, v⟩ := q
    rw [List.foldl_cons]
    cases k with
    | none =>
      by_cases hany : acc.any (fun p => p.1 = none) = true
      · have hins : pydictInsert none v acc =
            acc.map (fun p => if p.1 = none then (none, v) else p) := by
          simp only [pydictInsert, hany, if_true]
        rw [hins]
        have hnd2 : (((acc.map (fun p => if p.1 = none then (none, v) else p)) ++ rest).filterMap
            (fun p => p.1)).Nodup := by
          rw [List.filterMap_append, filterMap_fst_map_upd]
          have := hnd
          rw [List.filterMap_append, List.filterMap_cons] at this
          simpa using this
        rw [ih _ hnd2, List.filter_append, List.filter_append, filter_top_map_upd]
        simp [List.filter_cons, show topKey none = false from rfl]
      · have hins : pydictInsert none v acc = acc ++ [(none, v)] := by
          simp only [pydictInsert]
          rw [if_neg hany]
        rw [hins, ih]
        · simp [List.filter_append, List.filter_cons, show topKey none = false from rfl]
        · rw [List.append_assoc]
          simpa using hnd
    | some s =>
      have hsacc : s ∉ acc.filterMap (fun p => p.1) := by
        have h1 := hnd
        rw [List.filterMap_append, List.filterMap_cons] at h1
        simp only [List.nodup_append] at h1
        intro hmem
        exact h1.2.2 hmem (by simp)
      have hany : acc.any (fun p => p.1 = some s) = false := by
        rw [List.any_eq_false]
        intro p hp hps
        exact hsacc (List.mem_filterMap.mpr ⟨p, hp, by simpa using hps⟩)
      have hins : pydictInsert (some s) v acc = acc ++ [(some s, v)] := by
        simp only [pydictInsert]
        rw [if_neg (by simp [hany])]
      rw [hins, ih]
      · simp [List.filter_append, List.filter_cons]
      · rw [List.append_assoc]
        simpa using hnd



mutual

theorem preRoot_labels (cs : List Xml) :
    ∀ d ∈ preRoot cs, ∀ s, d.label = some s → s ∈ xlabelsL cs := by
  match cs with
  | [] => intro d hd; rw [preRoot] at hd; simp at hd
  | .el t l ch :: rest =>
    intro d hd s hs
    rw [preRoot] at hd
    rcases List.mem_append.mp hd with h | h
    · split_ifs at h with h1 h2 h3
      · rcases List.mem_cons.mp h with h5 | h5
        · subst h5; simp [Xml.label] at hs; subst hs; simp [xlabelsL, xlabels]
        · have := preActCh_labels ch d h5 s hs
          simp only [xlabelsL, xlabels, List.mem_append]; tauto
      · have := preBulCh_labels ch d h s hs
        simp only [xlabelsL, xlabels, List.mem_append]; tauto
      · have := preFireCh_labels ch d h s hs
        simp only [xlabelsL, xlabels, List.mem_append]; tauto
      · simp at h
    · have := preRoot_labels rest d h s hs
      simp only [xlabelsL, List.mem_append]; tauto

theorem preActCh_labels (cs : List Xml) :
    ∀ d ∈ preActCh cs, ∀ s, d.label = some s → s ∈ xlabelsL cs := by
  match cs with
  | [] => intro d hd; rw [preActCh] at hd; simp at hd
  | .el t l ch :: rest =>
    intro d hd s hs
    rw [preActCh] at hd
    rcases List.mem_append.mp hd with h | h
    · split_ifs at h with h1 h2 h3 h4
      · have := preRptCh_labels ch d h s hs
        simp only [xlabelsL, xlabels, List.mem_append]; tauto
      · have := preFireCh_labels ch d h s hs
        simp only [xlabelsL, xlabels, List.mem_append]; tauto
      · have := preIfCh_labels ch d h s hs
        simp only [xlabelsL, xlabels, List.mem_append]; tauto
      · rcases List.mem_cons.mp h with h5 | h5
        · subst h5; simp [Xml.label] at hs; subst hs; simp [xlabelsL, xlabels]
        · have := preActCh_labels ch d h5 s hs
          simp only [xlabelsL, xlabels, List.mem_append]; tauto
      · simp at h
    · have := preActCh_labels rest d h s hs
      simp only [xlabelsL, List.mem_append]; tauto

theorem preRptCh_labels (cs : List Xml) :
    ∀ d ∈ preRptCh cs, ∀ s, d.label = some s → s ∈ xlabelsL cs := by
  match cs with
  | [] => intro d hd; rw [preRptCh] at hd; simp at hd
  | .el t l ch :: rest =>
    intro d hd s hs
    rw [preRptCh] at hd
    rcases List.mem_append.mp hd with h | h
    · split_ifs at h with h1
      · rcases List.mem_cons.mp h with h5 | h5
        · subst h5; simp [Xml.label] at hs; subst hs; simp [xlabelsL, xlabels]
        · have := preActCh_labels ch d h5 s hs
          simp only [xlabelsL, xlabels, List.mem_append]; tauto
      · simp at h
    · have := preRptCh_labels rest d h s hs
      simp only [xlabelsL, List.mem_append]; tauto

theorem preIfCh_labels (cs : List Xml) :
    ∀ d ∈ preIfCh cs, ∀ s, d.label = some s → s ∈ xlabelsL cs := by
  match cs with
  | [] => intro d hd; rw [preIfCh] at hd; simp at hd
  | .el t l ch :: rest =>
    intro d hd s hs
    rw [preIfCh] at hd
    rcases List.mem_append.mp hd with h | h
    · split_ifs at h with h1 h2
      · rcases List.mem_cons.mp h with h5 | h5
        · subst h5; simp [Xml.label] at hs; subst hs; simp [xlabelsL, xlabels]
        · have := preActCh_labels ch d h5 s hs
          simp only [xlabelsL, xlabels, List.mem_append]; tauto
      · rcases List.mem_cons.mp h with h5 | h5
        · subst h5; simp [Xml.label] at hs; subst hs; simp [xlabelsL, xlabels]
        · have := preActCh_labels ch d h5 s hs
          simp only [xlabelsL, xlabels, List.mem_append]; tauto
      · simp at h
    · have := preIfCh_labels rest d h s hs
      simp only [xlabelsL, List.mem_append]; tauto

theorem preFireCh_labels (cs : List Xml) :
    ∀ d ∈ preFireCh cs, ∀ s, d.label = some s → s ∈ xlabelsL cs := by
  match cs with
  | [] => intro d hd; rw [preFireCh] at hd; simp at hd
  | .el t l ch :: rest =>
    intro d hd s hs
    rw [preFireCh] at hd
    rcases List.mem_append.mp hd with h | h
    · split_ifs at h with h1
      · have := preBulCh_labels ch d h s hs
        simp only [xlabelsL, xlabels, List.mem_append]; tauto
      · simp at h
    · have := preFireCh_labels rest d h s hs
      simp only [xlabelsL, List.mem_append]; tauto

theorem preBulCh_labels (cs : List Xml) :
    ∀ d ∈ preBulCh cs, ∀ s, d.label = some s → s ∈ xlabelsL cs := by
  match cs with
  | [] => intro d hd; rw [preBulCh] at hd; simp at hd
  | .el t l ch :: rest =>
    intro d hd s hs
    rw [preBulCh] at hd
    rcases List.mem_append.mp hd with h | h
    · split_ifs at h with h1
      · rcases List.mem_cons.mp h with h5 | h5
        · subst h5; simp [Xml.label] at hs; subst hs; simp [xlabelsL, xlabels]
        · have := preActCh_labels ch d h5 s hs
          simp only [xlabelsL, xlabels, List.mem_append]; tauto
      · simp at h
    · have := preBulCh_labels rest d h s hs
      simp only [xlabelsL, List.mem_append]; tauto

end

theorem filter_top_nil_keys (l : List (Option String × Xml))
    (h : ∀ p ∈ l, (p : Option String × Xml).1 = none) :
    l.filter (fun p => topKey p.1) = [] := by
  induction l with
  | nil => rfl
  | cons q rest ih =>
    rw [List.filter_cons, h q (by simp)]
    simp only [show topKey none = false from rfl, Bool.false_eq_true, if_false]
    exact ih (fun p hp => h p (by simp [hp]))

theorem filter_top_nil_labels (l : List Xml)
    (h : ∀ d ∈ l, Xml.label d = none) :
    l.filter (fun d => topKey d.label) = [] := by
  induction l with
  | nil => rfl
  | cons q rest ih =>
    rw [List.filter_cons, h q (by simp)]
    simp only [show topKey none = false from rfl, Bool.false_eq_true, if_false]
    exact ih (fun p hp => h p (by simp [hp]))

theorem regs_pre_filter (cs : List Xml)
    (h : ∀ c ∈ cs, xlabelsL (Xml.children c) = []) :
    (regsRoot cs).filter (fun p => topKey p.1) =
      ((preRoot cs).filter (fun d => topKey d.label)).map (fun d => (d.label, d)) := by
  induction cs with
  | nil => rw [regsRoot, preRoot]; rfl
  | cons c rest ih =>
    obtain ⟨t, l, ch⟩ := c
    have hch : xlabelsL ch = [] := h (.el t l ch) (by simp)
    have hkeysA : ∀ p ∈ regsActCh ch, (p : Option String × Xml).1 = none := by
      intro p hp
      cases hpk : p.1 with
      | none => rfl
      | some s =>
        have := regsActCh_keys ch p hp s hpk
        rw [hch] at this; simp at this
    have hkeysB : ∀ p ∈ regsBulCh ch, (p : Option String × Xml).1 = none := by
      intro p hp
      cases hpk : p.1 with
      | none => rfl
      | some s =>
        have := regsBulCh_keys ch p hp s hpk
        rw [hch] at this; simp at this
    have hkeysF : ∀ p ∈ regsFireCh ch, (p : Option String × Xml).1 = none := by
      intro p hp
      cases hpk : p.1 with
      | none => rfl
      | some s =>
        have := regsFireCh_keys ch p hp s hpk
        rw [hch] at this; simp at this
    have hlabA : ∀ d ∈ preActCh ch, Xml.label d = none := by
      intro d hd
      cases hdk : d.label with
      | none => rfl
      | some s =>
        have := preActCh_labels ch d hd s hdk
        rw [hch] at this; simp at this
    have hlabB : ∀ d ∈ preBulCh ch, Xml.label d = none := by
      intro d hd
      cases hdk : d.label with
      | none => rfl
      | some s =>
        have := preBulCh_labels ch d hd s hdk
        rw [hch] at this; simp at this
    have hlabF : ∀ d ∈ preFireCh ch, Xml.label d = none := by
      intro d hd
      cases hdk : d.label with
      | none => rfl
      | some s =>
        have := preFireCh_labels ch d hd s hdk
        rw [hch] at this; simp at this
    have ihr := ih (fun c hc => h c (by simp [hc]))
    rw [regsRoot, preRoot, List.filter_append, List.filter_append, List.map_append, ihr]
    congr 1
    split_ifs with h1 h2 h3
    · rw [List.filter_append, filter_top_nil_keys _ hkeysA, List.nil_append]
      simp only [List.filter_cons]
      rw [filter_top_nil_labels _ hlabA]
      by_cases hl : topKey l = true
      · simp [hl, Xml.label]
      · simp [hl, Xml.label]
    · rw [filter_top_nil_keys _ hkeysB, filter_top_nil_labels _ hlabB]
      rfl
    · rw [filter_top_nil_keys _ hkeysF, filter_top_nil_labels _ hlabF]
      rfl
    · rfl

/-- C6 (amended): when `label` attributes occur only on direct children
of the document root and the labels of the registered action
definitions are pairwise distinct, the loaded top-action list is
exactly the action definitions whose label starts with `top`, in
document order.  (In general the claim fails: `doc._actions` is a dict,
so a repeated label keeps only the last definition, at the first
occurrence's position.) -/
theorem top_actions_C6_amended (root : Xml)
    (h1 : ∀ c ∈ Xml.children root, xlabelsL (Xml.children c) = [])
    (h2 : ((regsRoot (Xml.children root)).filterMap (fun p => p.1)).Nodup) :
    docTopActions root = specTopActions root := by
  rw [docTopActions, pydictOfList,
    pydict_fold_filter _ [] (by simpa using h2), List.nil_append,
    regs_pre_filter _ h1, specTopActions, List.map_map]
  have hcomp : ((fun p : Option String × Xml => p.2) ∘ (fun d : Xml => (d.label, d))) = id := rfl
  rw [hcomp, List.map_id]


/-- C6 (counterexample): two top-level `<action>` elements both
labelled `top` collapse in the `doc._actions` dict; the loaded list
holds only the second definition while the spec's description lists
both in document order. -/
theorem top_actions_C6_counterexample : docTopActions c6doc ≠ specTopActions c6doc := by
  have ht : topKey (some "top") = true := by decide
  simp [docTopActions, specTopActions, c6doc, Xml.children, Xml.label, regsRoot, regsActCh,
    pydictOfList, pydictInsert, preRoot, preActCh, ht]

theorem top_actions_C6_amended_witness :
    ((∀ c ∈ Xml.children c6docW, xlabelsL (Xml.children c) = []) ∧
      ((regsRoot (Xml.children c6docW)).filterMap (fun p => p.1)).Nodup) ∧
    docTopActions c6docW = specTopActions c6docW := by
  have h1 : ∀ c ∈ Xml.children c6docW, xlabelsL (Xml.children c) = [] := by
    intro c hc
    simp only [c6docW, Xml.children, List.mem_cons, List.not_mem_nil, or_false] at hc
    rcases hc with rfl | rfl <;>
      simp [xlabelsL, xlabels, Xml.children]
  have h2 : ((regsRoot (Xml.children c6docW)).filterMap (fun p => p.1)).Nodup := by
    rw [show (regsRoot (Xml.children c6docW)).filterMap (fun p => p.1) =
        ["topMain", "aux"] from by
      simp [c6docW, Xml.children, regsRoot, regsActCh, regsFireCh, regsBulCh]]
    decide
  exact ⟨⟨h1, h2⟩, top_actions_C6_amended c6docW h1 h2⟩

/-! ### C8: expression errors at compile time and at runtime -/

/-- The runtime evaluator can fail — with `NameError`,
`ZeroDivisionError`, `IndexError` or a `TypeError` — but never with
`ExprError`: no handler rewraps its exceptions. -/
theorem eval2_no_exprError : ∀ (a : Ast) (rnd : ℕ → ℚ) (rk : ℚ) (ps : List ℚ)
    (ctr : ℕ) (s : String), eval2 a rnd rk ps ctr ≠ .error (.exprError s) := by
  intro a
  induction a with
  | num q => intro rnd rk ps ctr s; simp [eval2]
  | name t =>
    intro rnd rk ps ctr s
    simp only [eval2]
    split_ifs <;> simp
  | rand => intro rnd rk ps ctr s; simp [eval2]
  | rank => intro rnd rk ps ctr s; simp [eval2]
  | param i =>
    intro rnd rk ps ctr s
    simp only [eval2]
    split <;> try simp
    split <;> simp
  | neg a ih =>
    intro rnd rk ps ctr s
    simp only [eval2]
    split
    · simp
    · rename_i e heq
      intro h
      simp only [Except.error.injEq] at h
      rw [h] at heq
      exact ih rnd rk ps ctr s heq
  | add a b iha ihb =>
    intro rnd rk ps ctr s
    simp only [eval2]
    split
    · rename_i e heq
      intro h
      simp only [Except.error.injEq] at h
      rw [h] at heq
      exact iha rnd rk ps ctr s heq
    · rename_i p heq
      split
      · rename_i e heq2
        intro h
        simp only [Except.error.injEq] at h
        rw [h] at heq2
        exact ihb rnd rk ps p.2 s heq2
      · simp
  | sub a b iha ihb =>
    intro rnd rk ps ctr s
    simp only [eval2]
    split
    · rename_i e heq
      intro h
      simp only [Except.error.injEq] at h
      rw [h] at heq
      exact iha rnd rk ps ctr s heq
    · rename_i p heq
      split
      · rename_i e heq2
        intro h
        simp only [Except.error.injEq] at h
        rw [h] at heq2
        exact ihb rnd rk ps p.2 s heq2
      · simp
  | mul a b iha ihb =>
    intro rnd rk ps ctr s
    simp only [eval2]
    split
    · rename_i e heq
      intro h
      simp only [Except.error.injEq] at h
      rw [h] at heq
      exact iha rnd rk ps ctr s heq
    · rename_i p heq
      split
      · rename_i e heq2
        intro h
        simp only [Except.error.injEq] at h
        rw [h] at heq2
        exact ihb rnd rk ps p.2 s heq2
      · simp
  | div a b iha ihb =>
    intro rnd rk ps ctr s
    simp only [eval2]
    split
    · rename_i e heq
      intro h
      simp only [Except.error.injEq] at h
      rw [h] at heq
      exact iha rnd rk ps ctr s heq
    · rename_i p heq
      split
      · rename_i e heq2
        intro h
        simp only [Except.error.injEq] at h
        rw [h] at heq2
        exact ihb rnd rk ps p.2 s heq2
      · split <;> simp

/-- C8 (counterexample): `"1/$rand"` compiles successfully when the
trial random draw is nonzero, but evaluating the compiled expression
with a random draw of 0 raises a raw `ZeroDivisionError`, not an
`ExprError` — `NumberDef.__call__` has no exception handler. -/
theorem numberdef_errors_C8_counterexample :
    numberDefCompile "1/$rand" (fun _ => 2) = .ok c8nd ∧
    numberDefCall c8nd [] 1 (fun _ => 0) = .error PyErr.zeroDivision ∧
    ∀ s, PyErr.zeroDivision ≠ PyErr.exprError s := by
  refine ⟨rfl, rfl, ?_⟩
  intro s
  simp

/-- C8 (amended): constructing a `NumberDef` from an invalid expression
fails with `ExprError` — every compile-time failure is rewrapped
(expr.py lines 63-64) — but a failure while evaluating a compiled
expression propagates as the raw exception: `NumberDef.__call__` never
produces an `ExprError`. -/
theorem numberdef_errors_C8_amended :
    (∀ (s : String) (trial : ℕ → ℚ),
        (∃ nd, numberDefCompile s trial = .ok nd) ∨
        numberDefCompile s trial = .error (.exprError s)) ∧
    (∀ (nd : NDef) (ps : List ℚ) (rk : ℚ) (rnd : ℕ → ℚ) (s : String),
        numberDefCall nd ps rk rnd ≠ .error (.exprError s)) := by
  constructor
  · intro s trial
    unfold numberDefCompile
    split
    · exact .inr rfl
    · split
      · exact .inr rfl
      · split
        · exact .inr rfl
        · split
          · exact .inl ⟨_, rfl⟩
          · split
            · exact .inl ⟨_, rfl⟩
            · exact .inr rfl
          · exact .inr rfl
  · intro nd ps rk rnd s
    unfold numberDefCall
    split
    · simp
    · split
      · simp
      · rename_i e heq
        intro h
        simp only [Except.error.injEq] at h
        rw [h] at heq
        exact eval2_no_exprError nd.ast rnd rk ps 0 s heq

end BML
